import Mathlib

/-!
# MemoryEngine360 CCAPI surrogate: protocol engine

Shallow embedding of `main.cpp` (frame loop, command dispatcher, chunked
memory read) and of the parts of `ccapi.c` the dispatcher goes through.

Modelling conventions.

* A byte is a `Nat`; every decoder reduces the cell it reads modulo 256.
  Fixed-width integers are `Nat` (unsigned) or `Int` (signed) and are reduced
  modulo `2 ^ w` where the C code converts or stores them.
* Multi-byte scalars are sent and read by pointer reinterpretation on a
  little-endian host (`#define LITTLE_ENDIAN`, Winsock on x86/x64), so the wire
  order is least significant byte first.
* Raw memory reached through a `char*` is a function `Nat → Nat` from offset to
  cell.  The 64 KiB receive buffer keeps the bytes of earlier frames beyond the
  part a `recv` overwrites, as in the source.
* The socket is split in its two directions.  The receiving side is the list
  of bytes the peer still sends before it closes.  The sending side is the list
  of bytes written so far plus `room`, the number of bytes the peer still
  accepts (`none`: the transport never fails).
* The console library behind the `NATIVE_*` pointers is external.  It is a
  deterministic oracle `Capability`: each entry point answers from its arguments
  and from the number of library calls made before.  Every library call is
  logged in `World.calls`.  The pointers are taken to be bound.
* `malloc` either always returns a block or never does (`World.malloc_ok`);
  blocks are not tracked after that.
* The two `while`/`for` loops whose trip count is not a counter run on fuel:
  `get_memory_loop` (fuel `cb_remaining`, see `get_memory_loop_fuel_irrelevant`),
  `run_network_loop_fuel` (fuel: bytes to come plus one, see
  `run_network_loop_total`) and `string_to_array_loop` (fuel `len + 1`, see
  `string_to_array_loop_length`).
* `Conn.packets` records each call of `process_packet` by the loop; it is not
  a variable of the source.
* `printf` output is not modelled.
-/

namespace MemEngine360

/-! ## Scalars on the wire -/

/-- Little-endian bytes of `v`, `n` of them (`reinterpret_cast<char*>(&value)`). -/
def le_bytes : Nat → Nat → List Nat
  | 0, _ => []
  | n + 1, v => (v % 256) :: le_bytes n (v / 256)

/-- Conversion of an `int` to `size_t` (64-bit build; equal to the value itself when it is not negative). -/
def to_size_t (x : Int) : Nat := (x % 2 ^ 64).toNat

/-- Conversion of an `int` to `uint32_t`. -/
def to_uint32 (x : Int) : Nat := (x % 2 ^ 32).toNat

/-- Value of `INT_MAX`. -/
def INT_MAX : Nat := 2 ^ 31 - 1

/-- Value of `CCAPI_OK` in `ccapi.h`. -/
def CCAPI_OK : Int := 0

/-- Value of `CCAPI_ERROR` in `ccapi.h`. -/
def CCAPI_ERROR : Int := -1

/-- Bytes `p[off] .. p[off + n - 1]` of raw memory. -/
def mem_slice (p : Nat → Nat) (off n : Nat) : List Nat :=
  (List.range n).map (fun i => p (off + i) % 256)

/-- Raw memory after `bytes` have been stored from offset 0 on. -/
def mem_store (p : Nat → Nat) (bytes : List Nat) : Nat → Nat :=
  fun i => if i < bytes.length then bytes.getD i 0 else p i

/-- Model of `recv_uint8_from_buffer(recv_buffer + off)`. -/
def recv_uint8_from_buffer (recv_buffer : Nat → Nat) (off : Nat) : Nat :=
  recv_buffer off % 256

/-- Model of `recv_uint16_from_buffer(recv_buffer + off)`. -/
def recv_uint16_from_buffer (recv_buffer : Nat → Nat) (off : Nat) : Nat :=
  recv_buffer off % 256 + 256 * (recv_buffer (off + 1) % 256)

/-- Model of `recv_uint32_from_buffer(recv_buffer + off)`. -/
def recv_uint32_from_buffer (recv_buffer : Nat → Nat) (off : Nat) : Nat :=
  recv_buffer off % 256 + 256 * (recv_buffer (off + 1) % 256)
    + 65536 * (recv_buffer (off + 2) % 256) + 16777216 * (recv_buffer (off + 3) % 256)

/-- Model of `recv_int32_from_buffer(recv_buffer + off)`; also the `int32_t* header` reads of the loop. -/
def recv_int32_from_buffer (recv_buffer : Nat → Nat) (off : Nat) : Int :=
  let u := recv_uint32_from_buffer recv_buffer off
  if u < 2 ^ 31 then (u : Int) else (u : Int) - 2 ^ 32

/-- Model of `strlen`: the number of cells before the first NUL (or before the end of the modelled memory). -/
def c_strlen (s : List Nat) : Nat := (s.takeWhile (fun c => c % 256 != 0)).length

/-- Bytes of a C string literal. -/
def c_literal (s : String) : List Nat := s.toList.map Char.toNat

/-- Model of `strstr(hay, needle) != NULL` on two strings without NUL. -/
def c_strstr : List Nat → List Nat → Bool
  | [], needle => needle.isEmpty
  | c :: hay, needle => needle.isPrefixOf (c :: hay) || c_strstr hay needle

/-! ## The world the handlers act on -/

/-- One call through a `NATIVE_*` pointer (or `LoadLibraryA`/`FreeLibrary`), with its arguments. -/
inductive CapCall where
  | loadLibrary
  | freeLibrary
  | connect (ip : List Nat)
  | disconnect
  | setMemory (pid address size : Nat) (data : List Nat)
  | getMemory (pid address size : Nat)
  | getProcessList
  | getProcessName (pid : Nat)
  deriving DecidableEq, Repr

/-- The external console library.  The first argument of every entry point is the number of library calls made before this one. -/
structure Capability where
  /-- Whether `LoadLibraryA` gave a handle, and whether every `GetProcAddress` gave a symbol. -/
  loadLibrary : Nat → Bool × Bool
  /-- Return code of `CCAPIConnectConsole(ip)`. -/
  connect : Nat → List Nat → Int
  /-- Return code of `CCAPIDisconnectConsole()`. -/
  disconnect : Nat → Int
  /-- Return code of `CCAPISetMemory(pid, address, size, data)`. -/
  setMemory : Nat → Nat → Nat → Nat → List Nat → Int
  /-- Return code of `CCAPIGetMemory(pid, address, size, data)` and what `data` holds afterwards. -/
  getMemory : Nat → Nat → Nat → Nat → Int × List Nat
  /-- Return code of `CCAPIGetProcessList(&npid, pids)`, then `npid` and `pids` afterwards. -/
  getProcessList : Nat → Int × Nat × List Nat
  /-- Return code of `CCAPIGetProcessName(pid, &name)` and what `name.value` holds afterwards. -/
  getProcessName : Nat → Nat → Int × List Nat

/-- State a handler can observe or change. -/
structure World where
  /-- Bytes written to the peer so far, oldest first. -/
  output : List Nat
  /-- Bytes the peer still accepts before `send` fails; `none` when it never fails. -/
  room : Option Nat
  /-- Whether `malloc` returns a block. -/
  malloc_ok : Bool
  /-- Static `ProcessId` of `ccapi.c`. -/
  ProcessId : Nat
  /-- Static `LibHandle != NULL` of `ccapi.c`. -/
  LibHandle : Bool
  /-- Static `LibLoaded` of `ccapi.c`. -/
  LibLoaded : Bool
  /-- Library calls made so far, oldest first. -/
  calls : List CapCall
  /-- What the uninitialised local `name_buffer` of command 23 holds: `none` for a null pointer, else the string it points to. A value that is neither null nor the address of a readable string is outside the model: the program has no defined behaviour when it reads through it. -/
  stale_name_buffer : Option (List Nat)
  deriving DecidableEq, Repr

/-- Initial statics of `ccapi.c` (`ProcessId = ~0`), nothing written, a transport that never fails. -/
def World.fresh : World :=
  { output := [], room := none, malloc_ok := true, ProcessId := 2 ^ 32 - 1,
    LibHandle := false, LibLoaded := false, calls := [], stale_name_buffer := none }

/-- Record a library call. -/
def World.log (w : World) (c : CapCall) : World := { w with calls := w.calls ++ [c] }

/-! ## Transport primitives -/

/-- Model of `send_exact`: all `count` bytes are written, or the peer stops accepting and the result is -1. -/
def send_exact (w : World) (buffer : List Nat) (count : Int) : Int × World :=
  if count ≤ 0 then (0, w)
  else
    match w.room with
    | none => (count, { w with output := w.output ++ buffer.take count.toNat })
    | some r =>
      if count.toNat ≤ r then
        (count, { w with output := w.output ++ buffer.take count.toNat, room := some (r - count.toNat) })
      else
        (-1, { w with output := w.output ++ buffer.take r, room := some 0 })

/-- Model of `send_uint8`. -/
def send_uint8 (w : World) (value : Nat) : Int × World :=
  send_exact w (le_bytes 1 (value % 2 ^ 8)) 1

/-- Model of `send_uint16`. -/
def send_uint16 (w : World) (value : Nat) : Int × World :=
  send_exact w (le_bytes 2 (value % 2 ^ 16)) 2

/-- Model of `send_int32`. -/
def send_int32 (w : World) (value : Int) : Int × World :=
  send_exact w (le_bytes 4 (to_uint32 value)) 4

/-- Model of `send_uint32`. -/
def send_uint32 (w : World) (value : Nat) : Int × World :=
  send_exact w (le_bytes 4 (value % 2 ^ 32)) 4

/-- Model of `send_buffer_with_tag`. -/
def send_buffer_with_tag (w : World) (data : List Nat) (count : Int) : Int × World :=
  match send_int32 w count with
  | (ret, w1) =>
    if ret < 0 then (ret, w1)
    else
      match send_exact w1 data count with
      | (ret2, w2) => if ret2 < 0 then (ret2, w2) else (count + 4, w2)

/-- Model of `send_string_with_tag`. -/
def send_string_with_tag (w : World) (text : List Nat) : Int × World :=
  let cch_text := c_strlen text
  if cch_text > INT_MAX then (-2, w)
  else
    match send_int32 w (cch_text : Int) with
    | (ret, w1) =>
      if ret < 0 then (ret, w1)
      else
        match send_exact w1 text (cch_text : Int) with
        | (ret2, w2) => if ret2 < 0 then (ret2, w2) else (0, w2)

/-- Model of `recv_exact_from_network` on the bytes the peer still sends: result, bytes left, buffer afterwards. -/
def recv_exact_from_network (input : List Nat) (buffer : Nat → Nat) (count : Int) :
    Int × List Nat × (Nat → Nat) :=
  if count ≤ 0 then (0, input, buffer)
  else if input.length < count.toNat then (-1, [], mem_store buffer input)
  else (count, input.drop count.toNat, mem_store buffer (input.take count.toNat))

/-- Model of `recv_u16tagged_into_new_buffer`: result, the new block (the copied bytes, then the NUL when `string`) and `*p_cch_dst_buffer`. -/
def recv_u16tagged_into_new_buffer (w : World) (recv_buffer : Nat → Nat) (string : Bool) :
    Int × List Nat × Nat :=
  let cch_dst_buffer := recv_uint16_from_buffer recv_buffer 0
  if w.malloc_ok = false then (-1, [], cch_dst_buffer)
  else (0, mem_slice recv_buffer 2 cch_dst_buffer ++ (if string then [0] else []), cch_dst_buffer)

/-! ## `ccapi.c` -/

/-- Model of `ccapi_init`. -/
def ccapi_init (cap : Capability) (w : World) : Int × World :=
  if w.LibHandle then (CCAPI_OK, w)
  else
    match cap.loadLibrary w.calls.length with
    | (handle, symbols) =>
      if handle = false then (CCAPI_ERROR, { w.log CapCall.loadLibrary with LibHandle := false })
      else
        (if symbols then CCAPI_OK else CCAPI_ERROR,
          { w.log CapCall.loadLibrary with LibHandle := true, LibLoaded := symbols })

/-- Model of `ccapi_free`. -/
def ccapi_free (w : World) : Int × World :=
  if w.LibHandle then
    (CCAPI_OK, { w.log CapCall.freeLibrary with LibHandle := false, LibLoaded := false })
  else (CCAPI_OK, { w with LibLoaded := false })

/-- Model of `ccapi_connect`; `ip` is the block the caller passes, read up to its NUL. -/
def ccapi_connect (cap : Capability) (w : World) (ip : List Nat) : Int × World :=
  (cap.connect w.calls.length (ip.take (c_strlen ip)), w.log (CapCall.connect (ip.take (c_strlen ip))))

/-- Model of `ccapi_disconnect`. -/
def ccapi_disconnect (cap : Capability) (w : World) : Int × World :=
  (cap.disconnect w.calls.length, w.log CapCall.disconnect)

/-- Model of `ccapi_get_attached_process`. -/
def ccapi_get_attached_process (w : World) : Nat := w.ProcessId

/-- Model of `ccapi_attach_process`. -/
def ccapi_attach_process (w : World) (pid : Nat) : Int × World :=
  (CCAPI_OK, { w with ProcessId := pid })

/-- Model of `ccapi_write_memory`. -/
def ccapi_write_memory (cap : Capability) (w : World) (address size : Nat) (data : List Nat) :
    Int × World :=
  (cap.setMemory w.calls.length w.ProcessId address size data,
    w.log (CapCall.setMemory w.ProcessId address size data))

/-- Model of `ccapi_read_memory`: return code, the `size` bytes of `data` afterwards, world. -/
def ccapi_read_memory (cap : Capability) (w : World) (address size : Nat) :
    Int × List Nat × World :=
  ((cap.getMemory w.calls.length w.ProcessId address size).1,
    mem_slice (fun i => (cap.getMemory w.calls.length w.ProcessId address size).2.getD i 0) 0 size,
    w.log (CapCall.getMemory w.ProcessId address size))

/-- Model of `ccapi_get_process_list`: return code, `*npid` and `pids` afterwards, world. -/
def ccapi_get_process_list (cap : Capability) (w : World) : Int × Nat × List Nat × World :=
  ((cap.getProcessList w.calls.length).1, (cap.getProcessList w.calls.length).2.1 % 2 ^ 32,
    (cap.getProcessList w.calls.length).2.2, w.log CapCall.getProcessList)

/-- Model of `ccapi_get_process_name`: return code, `name.value` afterwards, world. -/
def ccapi_get_process_name (cap : Capability) (w : World) (pid : Nat) : Int × List Nat × World :=
  ((cap.getProcessName w.calls.length pid).1,
    (cap.getProcessName w.calls.length pid).2.map (fun c => c % 256),
    w.log (CapCall.getProcessName pid))

/-- The scan of `ccapi_find_game_process` from index `i` on, `n` entries left; result, `*p_found_pid`, `*pp_process_name`, world. -/
def find_game_scan (cap : Capability) (pid_array : List Nat) :
    Nat → Nat → Nat → Option (List Nat) → World → Int × Nat × Option (List Nat) × World
  | 0, _, found_pid, name_buffer, w => (CCAPI_OK, found_pid, name_buffer, w)
  | n + 1, i, found_pid, name_buffer, w =>
    match ccapi_get_process_name cap w (pid_array.getD i 0 % 2 ^ 32) with
    | (ret, name, w1) =>
      if ret ≠ CCAPI_OK then (ret, found_pid, name_buffer, w1)
      else if c_strstr (name.take (c_strlen name)) (c_literal "dev_flash") = false then
        (CCAPI_OK, pid_array.getD i 0 % 2 ^ 32,
          (if c_strlen name > 0 ∧ w1.malloc_ok = true then some (name.take (c_strlen name))
           else name_buffer),
          w1)
      else find_game_scan cap pid_array n (i + 1) found_pid name_buffer w1

/-- Model of `ccapi_find_game_process(&found_pid, &name_buffer)`, given what the two locals hold on entry. -/
def ccapi_find_game_process (cap : Capability) (w : World) (found_pid : Nat)
    (name_buffer : Option (List Nat)) : Int × Nat × Option (List Nat) × World :=
  match ccapi_get_process_list cap w with
  | (ret, pid_count, pid_array, w1) =>
    if ret ≠ CCAPI_OK then (ret, found_pid, name_buffer, w1)
    else find_game_scan cap pid_array pid_count 0 found_pid name_buffer w1

/-- Value of the character `c` as a hexadecimal digit, if it is one. -/
def hex_digit (c : Nat) : Option Nat :=
  if 48 ≤ c ∧ c ≤ 57 then some (c - 48)
  else if 97 ≤ c ∧ c ≤ 102 then some (c - 87)
  else if 65 ≤ c ∧ c ≤ 70 then some (c - 55)
  else none

/-- Model of `strtoul(b, NULL, 16)` on a string of at most two characters that starts with no blank and no sign: the value of the hexadecimal digits before the first character that is not one (`acc` is the value read so far). -/
def strtoul16 : List Nat → Nat → Nat
  | [], acc => acc
  | c :: rest, acc =>
    match hex_digit c with
    | some d => strtoul16 rest (16 * acc + d)
    | none => acc

/-- The local `b` of one iteration of `ccapi_string_to_array`, read as a C string: `strncpy_s` copies at most two characters of `s` from index `i` on, then `b[1]` is set to `'0'` when it is NUL.  `s` holds the characters before the terminator. -/
def string_to_array_pair (s : List Nat) (i : Nat) : List Nat :=
  if (s.drop i).getD 0 0 = 0 then []
  else [(s.drop i).getD 0 0, if (s.drop i).getD 1 0 ≠ 0 then (s.drop i).getD 1 0 else 48]

/-- The `for` loop of `ccapi_string_to_array` from index `i` on: the bytes it stores at `id[j]`, `id[j + 1]`, ... in this order; `fuel` bounds the number of iterations. -/
def string_to_array_loop (s : List Nat) (len : Nat) : Nat → Nat → List Nat
  | 0, _ => []
  | fuel + 1, i =>
    if i < (len + 1) % 2 ^ 32 then
      (strtoul16 (string_to_array_pair s i) 0 % 256) ::
        string_to_array_loop s len fuel ((i + 2) % 2 ^ 32)
    else []

/-- Model of `ccapi_string_to_array(s, id)`: the bytes it stores at `id[0]`, `id[1]`, ... in this order (`j` starts at 0 and grows by one at each store). -/
def ccapi_string_to_array (s : List Nat) : List Nat :=
  if c_strlen s % 2 ^ 32 = 0 then []
  else
    string_to_array_loop ((s.map (fun c => c % 256)).take (c_strlen s)) (c_strlen s % 2 ^ 32)
      (c_strlen s % 2 ^ 32 + 1) 0

/-- Number of bytes of `ConsoleId.value` in `ccapi.h`. -/
def ConsoleId_size : Nat := 16

/-! ## Handlers of `main.cpp` -/

/-- Value of `chunk_size` in `handle_get_memory`. -/
def chunk_size : Nat := 0x7FFF

/-- The `while (cb_remaining > 0)` loop of `handle_get_memory`; `fuel` bounds the number of iterations. -/
def get_memory_loop (cap : Capability) (address : Nat) : Nat → Nat → World → Int × World
  | 0, _, w => (0, w)
  | fuel + 1, cb_remaining, w =>
    if cb_remaining > 0 then
      match ccapi_read_memory cap w address (min cb_remaining chunk_size) with
      | (ret, read_buffer, w1) =>
        if ret < 0 then (0, (send_uint16 w1 0x8000).2)
        else
          match send_uint16 w1 (min cb_remaining chunk_size) with
          | (ret2, w2) =>
            if ret2 < 0 then (ret2, w2)
            else
              match send_exact w2 read_buffer ((min cb_remaining chunk_size : Nat) : Int) with
              | (ret3, w3) =>
                if ret3 < 0 then (ret3, w3)
                else get_memory_loop cap address fuel (cb_remaining - min cb_remaining chunk_size) w3
    else (0, w)

/-- Model of `handle_get_memory`. -/
def handle_get_memory (cap : Capability) (w : World) (recv_buffer : Nat → Nat)
    (cb_recv_buffer : Int) : Int × World :=
  if cb_recv_buffer ≠ 8 then (-1, w)
  else if w.malloc_ok = false then (-1, w)
  else
    match send_uint8 w 1 with
    | (ret, w1) =>
      if ret < 0 then (ret, w1)
      else
        get_memory_loop cap (recv_uint32_from_buffer recv_buffer 0)
          (recv_uint32_from_buffer recv_buffer 4) (recv_uint32_from_buffer recv_buffer 4) w1

/-- Model of `handle_set_memory`. -/
def handle_set_memory (cap : Capability) (w : World) (recv_buffer : Nat → Nat)
    (cb_recv_buffer : Int) : Int × World :=
  if to_size_t cb_recv_buffer < 4 then (-1, w)
  else
    match send_uint8 w 1 with
    | (ret, w1) =>
      if ret < 0 then (ret, w1)
      else
        match ccapi_write_memory cap w1 (recv_uint32_from_buffer recv_buffer 0)
            (to_uint32 (cb_recv_buffer - 4))
            (mem_slice recv_buffer 4 (to_uint32 (cb_recv_buffer - 4))) with
        | (status, w2) =>
          match send_int32 w2 status with
          | (ret2, w3) => if ret2 < 0 then (ret2, w3) else (0, w3)

/-- Model of `handle_setup`. -/
def handle_setup (cap : Capability) (w : World) : Int × World :=
  match ccapi_init cap w with
  | (setup_ret, w1) =>
    match send_uint8 w1 1 with
    | (ret, w2) =>
      if ret < 0 then (ret, w2)
      else
        match send_uint8 w2 (if setup_ret = 0 then 1 else 0) with
        | (ret2, w3) => if ret2 < 0 then (ret2, w3) else (0, w3)

/-- The `for` loop of command 24 from index `i` on, `n` entries left (`n = pid_count - i`). -/
def process_list_loop (cap : Capability) (pid_array : List Nat) : Nat → Nat → World → Int × World
  | 0, _, w => (0, w)
  | n + 1, i, w =>
    match ccapi_get_process_name cap w (pid_array.getD i 0 % 2 ^ 32) with
    | (ret, name, w1) =>
      if ret ≠ CCAPI_OK then (-1, w1)
      else
        match send_uint32 w1 (pid_array.getD i 0) with
        | (ret2, w2) =>
          if ret2 < 0 then (ret2, w2)
          else
            match send_string_with_tag w2 name with
            | (ret3, w3) =>
              if ret3 < 0 then (ret3, w3)
              else process_list_loop cap pid_array n (i + 1) w3

/-- Model of `process_packet`, one branch per `case` of the `switch`. -/
def process_packet (cap : Capability) (w : World) (cmd_id : Int) (recv_buffer : Nat → Nat)
    (cb_recv_buffer : Int) : Int × World :=
  if cmd_id = 1 then
    match handle_setup cap w with
    | (ret, w1) => if ret ≠ 0 then (ret, w1) else (0, w1)
  else if cmd_id = 2 then
    match send_uint8 (ccapi_free w).2 0 with
    | (ret, w1) => if ret < 0 then (ret, w1) else (-1, w1)
  else if cmd_id = 3 then
    match
      (if cb_recv_buffer > 0 then
        match send_uint8 w 3 with
        | (ret, w1) =>
          if ret < 0 then (ret, w1)
          else
            match recv_u16tagged_into_new_buffer w1 recv_buffer true with
            | (ret2, text, cch_text) =>
              if ret2 < 0 then (ret2, w1)
              else
                match send_buffer_with_tag w1 text (cch_text : Int) with
                | (ret3, w2) => if ret3 < 0 then (ret3, w2) else (0, w2)
      else
        match send_uint8 w 2 with
        | (ret, w1) => if ret < 0 then (ret, w1) else (0, w1)) with
    | (ret, w1) =>
      if ret < 0 then (ret, w1)
      else
        match send_string_with_tag w1 (c_literal "This is param 1!!!") with
        | (ret2, w2) =>
          if ret2 < 0 then (ret2, w2)
          else
            match send_int32 w2 1234567 with
            | (ret3, w3) => if ret3 < 0 then (ret3, w3) else (0, w3)
  else if cmd_id = 4 then
    if cb_recv_buffer < 2 then (-1, w)
    else
      match recv_u16tagged_into_new_buffer w recv_buffer true with
      | (ret, ip_address, _) =>
        if ret < 0 then (ret, w)
        else
          match send_uint8 w 1 with
          | (ret2, w1) =>
            if ret2 < 0 then (ret2, w1)
            else
              match ccapi_connect cap w1 ip_address with
              | (status, w2) =>
                match send_int32 w2 status with
                | (ret3, w3) => if ret3 < 0 then (ret3, w3) else (0, w3)
  else if cmd_id = 5 then
    match send_uint8 w 1 with
    | (ret, w1) =>
      if ret < 0 then (ret, w1)
      else
        match ccapi_disconnect cap w1 with
        | (status, w2) =>
          match send_int32 w2 status with
          | (ret2, w3) => if ret2 < 0 then (ret2, w3) else (0, w3)
  else if cmd_id = 9 then
    -- `ret = handle_set_memory(...) != 0`: what is returned is the comparison, 1 or 0
    match handle_set_memory cap w recv_buffer cb_recv_buffer with
    | (ret, w1) => if ret ≠ 0 then (1, w1) else (0, w1)
  else if cmd_id = 10 then
    -- same precedence as for command 9
    match handle_get_memory cap w recv_buffer cb_recv_buffer with
    | (ret, w1) => if ret ≠ 0 then (1, w1) else (0, w1)
  else if cmd_id = 22 then
    if cb_recv_buffer < 4 then (-1, w)
    else
      match send_uint8 (ccapi_attach_process w (recv_uint32_from_buffer recv_buffer 0)).2 1 with
      | (ret, w1) =>
        if ret < 0 then (ret, w1)
        else
          match send_uint32 w1 (ccapi_get_attached_process w) with
          | (ret2, w2) => if ret2 < 0 then (ret2, w2) else (0, w2)
  else if cmd_id = 23 then
    match ccapi_find_game_process cap w 0 w.stale_name_buffer with
    | (ccapi_ret, found_pid, name_buffer, w1) =>
      match send_uint8 w1 (if name_buffer.isSome then 2 else 1) with
      | (ret, w2) =>
        if ret < 0 then (ret, w2)
        else
          match send_uint32 w2 (if ccapi_ret = 0 then found_pid else 0) with
          | (ret2, w3) =>
            if ret2 < 0 then (ret2, w3)
            else
              match name_buffer with
              | some text => (0, (send_string_with_tag w3 text).2)
              | none => (0, w3)
  else if cmd_id = 24 then
    match ccapi_get_process_list cap w with
    | (ret, pid_count, pid_array, w1) =>
      if ret ≠ CCAPI_OK then (-1, w1)
      else
        match send_uint8 w1 pid_count with
        | (ret2, w2) =>
          if ret2 < 0 then (ret2, w2)
          else process_list_loop cap pid_array pid_count 0 w2
  else (-1, w)

/-! ## Connection loop -/

/-- State of `run_network_loop`. -/
structure Conn where
  /-- Bytes the peer still sends before it closes the connection. -/
  input : List Nat
  /-- The receive buffer (`malloc(0x10000)` in `main`) and the memory after it. -/
  buffer : Nat → Nat
  /-- Every `(cmd_id, cb_data)` handed to `process_packet` so far, oldest first. -/
  packets : List (Int × Int)
  /-- What the handlers act on. -/
  world : World

/-- Model of `run_network_loop`; `fuel` bounds the number of iterations, `none` when it runs out. -/
def run_network_loop_fuel (cap : Capability) : Nat → Conn → Option (Int × Conn)
  | 0, _ => none
  | fuel + 1, c =>
    match recv_exact_from_network c.input c.buffer 8 with
    | (r, input1, buffer1) =>
      if r < 0 then some (0, { c with input := input1, buffer := buffer1 })
      else if recv_int32_from_buffer buffer1 0 < 0 then
        some (-1, { c with input := input1, buffer := buffer1 })
      else if recv_int32_from_buffer buffer1 4 < 0 ∨ recv_int32_from_buffer buffer1 4 > 0x10000 then
        some (-1, { c with input := input1, buffer := buffer1 })
      else
        match
          (if recv_int32_from_buffer buffer1 4 > 0 then
            recv_exact_from_network input1 buffer1 (recv_int32_from_buffer buffer1 4)
          else (0, input1, buffer1)) with
        | (r2, input2, buffer2) =>
          if r2 < 0 then some (0, { c with input := input2, buffer := buffer2 })
          else
            match process_packet cap c.world (recv_int32_from_buffer buffer1 0) buffer2
                (recv_int32_from_buffer buffer1 4) with
            | (result, w1) =>
              if result ≠ 0 then
                some (result,
                  { input := input2, buffer := buffer2, world := w1,
                    packets := c.packets ++ [(recv_int32_from_buffer buffer1 0, recv_int32_from_buffer buffer1 4)] })
              else
                run_network_loop_fuel cap fuel
                  { input := input2, buffer := buffer2, world := w1,
                    packets := c.packets ++ [(recv_int32_from_buffer buffer1 0, recv_int32_from_buffer buffer1 4)] }

/-- Model of `run_network_loop`: every iteration takes at least the 8 header bytes from the peer, so one more iteration than bytes to come is enough. -/
def run_network_loop (cap : Capability) (c : Conn) : Option (Int × Conn) :=
  run_network_loop_fuel cap (c.input.length + 1) c

/-! ## Vocabulary of the statements -/

/-- Append bytes to the output. -/
def World.emit (w : World) (bytes : List Nat) : World := { w with output := w.output ++ bytes }

/-- Length of chunk `k` of a read of `S` bytes. -/
def chunk_len (S k : Nat) : Nat := min (S - k * chunk_size) chunk_size

/-- Number of chunks of a read of `S` bytes: `S / chunk_size` rounded up. -/
def chunk_count (S : Nat) : Nat := (S + (chunk_size - 1)) / chunk_size

/-- Reply of the library to request `k` of a read of `S` bytes at `address` started in world `w`. -/
def read_reply (cap : Capability) (w : World) (address S k : Nat) : Int × List Nat :=
  cap.getMemory (w.calls.length + k) w.ProcessId address (chunk_len S k)

/-- Chunk `k` on the wire: its `uint16` length, then the bytes the library left in the read buffer. -/
def chunk_wire (cap : Capability) (w : World) (address S k : Nat) : List Nat :=
  le_bytes 2 (chunk_len S k) ++
    mem_slice (fun i => (read_reply cap w address S k).2.getD i 0) 0 (chunk_len S k)


/-- Reply of the library to the name lookup of entry `i` of the listing `pid_array`, when the lookup of entry 0 is library call number `first`. -/
def name_reply (cap : Capability) (first : Nat) (pid_array : List Nat) (i : Nat) :
    Int × List Nat :=
  cap.getProcessName (first + i) (pid_array.getD i 0 % 2 ^ 32)

/-- What `name.value` holds after the lookup of entry `i`. -/
def name_value (cap : Capability) (first : Nat) (pid_array : List Nat) (i : Nat) : List Nat :=
  (name_reply cap first pid_array i).2.map (fun c => c % 256)

/-- Entry `i` of a process list on the wire: `uint32` pid, `int32` name length, the name bytes up to the terminator. -/
def process_wire (cap : Capability) (first : Nat) (pid_array : List Nat) (i : Nat) : List Nat :=
  le_bytes 4 (pid_array.getD i 0 % 2 ^ 32) ++
    (le_bytes 4 (c_strlen (name_value cap first pid_array i)) ++
      (name_value cap first pid_array i).take (c_strlen (name_value cap first pid_array i)))

/-- Library that lists the processes `pids` and resolves the name of `pid` to `names pid`; every other entry point succeeds with nothing to report. -/
def listing_capability (pids : List Nat) (names : Nat → List Nat) : Capability :=
  { loadLibrary := fun _ => (true, true), connect := fun _ _ => 0, disconnect := fun _ => 0,
    setMemory := fun _ _ _ _ _ => 0,
    getMemory := fun _ _ _ _ => (0, []),
    getProcessList := fun _ => (0, pids.length, pids),
    getProcessName := fun _ pid => (0, names pid) }

/-- Two process names for the examples: pid 100 is a system process, any other pid a game. -/
def sample_names (pid : Nat) : List Nat :=
  if pid = 100 then c_literal "/dev_flash/vsh.self" ++ [0] else c_literal "game" ++ [0]

/-- Frame of an attach-process request: header `(22, 4)` and the pid, as the peer sends them. -/
def attach_frame (pid : Nat) : List Nat := le_bytes 4 22 ++ le_bytes 4 4 ++ le_bytes 4 pid

/-- Library whose console memory is the function `mem`: every read succeeds and returns the bytes at `[address, address + size)`; every other entry point succeeds with nothing to report. -/
def memory_capability (mem : Nat → Nat) : Capability :=
  { loadLibrary := fun _ => (true, true), connect := fun _ _ => 0, disconnect := fun _ => 0,
    setMemory := fun _ _ _ _ _ => 0,
    getMemory := fun _ _ address size => (0, mem_slice mem address size),
    getProcessList := fun _ => (0, 0, []),
    getProcessName := fun _ _ => (0, []) }

/-- Library whose calls succeed as for `memory_capability` up to call number `n` and fail with -1 from then on. -/
def faulting_capability (mem : Nat → Nat) (n : Nat) : Capability :=
  { loadLibrary := fun i => (decide (i < n), decide (i < n)),
    connect := fun i _ => if i < n then 0 else -1,
    disconnect := fun i => if i < n then 0 else -1,
    setMemory := fun i _ _ _ _ => if i < n then 0 else -1,
    getMemory := fun i _ address size => if i < n then (0, mem_slice mem address size) else (-1, []),
    getProcessList := fun i => if i < n then (0, 0, []) else (-1, 32, []),
    getProcessName := fun i _ => if i < n then (0, []) else (-1, []) }

/-- Receive buffer holding `bytes` from offset 0 on and zeroes after them. -/
def buffer_of (bytes : List Nat) : Nat → Nat := mem_store (fun _ => 0) bytes

/-- Connection at its start: `input` still to come, a zeroed buffer, a fresh world. -/
def Conn.start (input : List Nat) : Conn :=
  { input := input, buffer := fun _ => 0, packets := [], world := World.fresh }

/-- Library as `listing_capability`, except that the name lookup of pid `bad` fails with -1. -/
def failing_name_capability (pids : List Nat) (names : Nat → List Nat) (bad : Nat) : Capability :=
  { loadLibrary := fun _ => (true, true), connect := fun _ _ => 0, disconnect := fun _ => 0,
    setMemory := fun _ _ _ _ _ => 0,
    getMemory := fun _ _ _ _ => (0, []),
    getProcessList := fun _ => (0, pids.length, pids),
    getProcessName := fun _ pid => if pid = bad then (-1, []) else (0, names pid) }

/-- The process name after the lookup of entry `i`, as the C string in `name.value`: the bytes before the first NUL. -/
def name_text (cap : Capability) (first : Nat) (pid_array : List Nat) (i : Nat) : List Nat :=
  (name_value cap first pid_array i).take (c_strlen (name_value cap first pid_array i))
/-- A world as `World.fresh` in which the stack slot of the local `name_buffer` of command 23 holds a pointer to the string `text`. -/
def World.with_stale_name (text : List Nat) : World :=
  { World.fresh with stale_name_buffer := some text }

/-! ## Lemmas -/

theorem run_network_loop_fuel_packets_mono (cap : Capability) :
    ∀ (fuel : Nat) (c : Conn) (r : Int) (c' : Conn),
      run_network_loop_fuel cap fuel c = some (r, c') → c.packets.length ≤ c'.packets.length := by
  intro fuel
  induction fuel with
  | zero => intro c r c' h; simp [run_network_loop_fuel] at h
  | succ fuel ih =>
    intro c r c' h
    unfold run_network_loop_fuel at h
    simp only at h
    split_ifs at h
    all_goals first
      | (simp only [Option.some.injEq, Prod.mk.injEq] at h
         obtain ⟨_, rfl⟩ := h
         simp)
      | (have h2 := ih _ _ _ h
         simp only [List.length_append, List.length_singleton] at h2
         omega)

theorem recv_exact_header (header rest : List Nat) (buffer : Nat → Nat) (hlen : header.length = 8) :
    recv_exact_from_network (header ++ rest) buffer 8 = (8, rest, mem_store buffer header) := by
  simp [recv_exact_from_network, hlen, List.take_append_of_le_length, List.drop_append_of_le_length]

theorem send_exact_ok (w : World) (buffer : List Nat) (n : Nat) (hroom : w.room = none)
    (hn : 0 < n) : send_exact w buffer (n : Int) = ((n : Int), w.emit (buffer.take n)) := by
  have h : ¬ ((n : Int) ≤ 0) := by omega
  simp [send_exact, h, hroom, World.emit]

theorem send_uint8_ok (w : World) (v : Nat) (hroom : w.room = none) :
    send_uint8 w v = (1, w.emit [v % 256]) := by
  have := send_exact_ok w (le_bytes 1 (v % 2 ^ 8)) 1 hroom (by decide)
  simpa [send_uint8, le_bytes] using this

theorem send_uint16_ok (w : World) (v : Nat) (hroom : w.room = none) :
    send_uint16 w v = (2, w.emit (le_bytes 2 (v % 2 ^ 16))) := by
  have := send_exact_ok w (le_bytes 2 (v % 2 ^ 16)) 2 hroom (by decide)
  simpa [send_uint16, le_bytes] using this

theorem send_uint32_ok (w : World) (v : Nat) (hroom : w.room = none) :
    send_uint32 w v = (4, w.emit (le_bytes 4 (v % 2 ^ 32))) := by
  have := send_exact_ok w (le_bytes 4 (v % 2 ^ 32)) 4 hroom (by decide)
  simpa [send_uint32, le_bytes] using this

theorem send_int32_ok (w : World) (v : Int) (hroom : w.room = none) :
    send_int32 w v = (4, w.emit (le_bytes 4 (to_uint32 v))) := by
  have := send_exact_ok w (le_bytes 4 (to_uint32 v)) 4 hroom (by decide)
  simpa [send_int32, le_bytes] using this

@[simp] theorem emit_room (w : World) (b : List Nat) : (w.emit b).room = w.room := rfl

@[simp] theorem emit_calls (w : World) (b : List Nat) : (w.emit b).calls = w.calls := rfl

@[simp] theorem emit_ProcessId (w : World) (b : List Nat) : (w.emit b).ProcessId = w.ProcessId := rfl

@[simp] theorem emit_malloc_ok (w : World) (b : List Nat) : (w.emit b).malloc_ok = w.malloc_ok := rfl

@[simp] theorem emit_output (w : World) (b : List Nat) : (w.emit b).output = w.output ++ b := rfl

@[simp] theorem log_room (w : World) (c : CapCall) : (w.log c).room = w.room := rfl

@[simp] theorem log_calls (w : World) (c : CapCall) : (w.log c).calls = w.calls ++ [c] := rfl

@[simp] theorem log_ProcessId (w : World) (c : CapCall) : (w.log c).ProcessId = w.ProcessId := rfl

@[simp] theorem log_malloc_ok (w : World) (c : CapCall) : (w.log c).malloc_ok = w.malloc_ok := rfl

@[simp] theorem log_output (w : World) (c : CapCall) : (w.log c).output = w.output := rfl

theorem mem_slice_length (p : Nat → Nat) (off n : Nat) : (mem_slice p off n).length = n := by
  simp [mem_slice]

theorem chunk_len_succ (S k : Nat) :
    chunk_len (S - min S chunk_size) k = chunk_len S (k + 1) := by
  simp only [chunk_len, chunk_size]; omega

theorem chunk_count_pos (S : Nat) (h : 0 < S) :
    chunk_count S = chunk_count (S - min S chunk_size) + 1 := by
  simp only [chunk_count, chunk_size]; omega

theorem flatMap_range_succ (f : Nat → List Nat) (n : Nat) :
    (List.range (n + 1)).flatMap f = f 0 ++ (List.range n).flatMap (fun k => f (k + 1)) := by
  rw [List.range_succ_eq_map, List.flatMap_cons, List.flatMap_map]

theorem map_range_succ {β : Type} (f : Nat → β) (n : Nat) :
    (List.range (n + 1)).map f = f 0 :: (List.range n).map (fun k => f (k + 1)) := by
  rw [List.range_succ_eq_map, List.map_cons, List.map_map]
  rfl

theorem read_reply_shift (cap : Capability) (w w1 : World) (address S k : Nat)
    (hc : w1.calls.length = w.calls.length + 1) (hp : w1.ProcessId = w.ProcessId) :
    read_reply cap w1 address (S - min S chunk_size) k = read_reply cap w address S (k + 1) := by
  simp only [read_reply, chunk_len_succ, hc, hp]
  congr 1
  omega

theorem chunk_wire_shift (cap : Capability) (w w1 : World) (address S k : Nat)
    (hc : w1.calls.length = w.calls.length + 1) (hp : w1.ProcessId = w.ProcessId) :
    chunk_wire cap w1 address (S - min S chunk_size) k = chunk_wire cap w address S (k + 1) := by
  simp only [chunk_wire, read_reply_shift cap w w1 address S k hc hp, chunk_len_succ]

theorem get_memory_loop_ok (cap : Capability) (address : Nat) :
    ∀ (fuel S : Nat) (w : World), w.room = none → S ≤ fuel →
      (∀ k, k < chunk_count S → 0 ≤ (read_reply cap w address S k).1) →
      get_memory_loop cap address fuel S w =
        (0, { w with
              output := w.output ++ (List.range (chunk_count S)).flatMap (chunk_wire cap w address S),
              calls := w.calls ++ (List.range (chunk_count S)).map
                (fun k => CapCall.getMemory w.ProcessId address (chunk_len S k)) }) := by
  intro fuel
  induction fuel with
  | zero =>
    intro S w _ hS _
    have : S = 0 := by omega
    subst this
    simp [get_memory_loop, chunk_count, chunk_size]
  | succ fuel ih =>
    intro S w hroom hS hok
    unfold get_memory_loop
    by_cases h0 : S > 0
    · rw [if_pos h0]
      have hk0 := hok 0 (by rw [chunk_count_pos S h0]; omega)
      have hlen0 : chunk_len S 0 = min S chunk_size := by simp [chunk_len]
      simp only [read_reply, Nat.add_zero, hlen0] at hk0
      simp only [ccapi_read_memory]
      rw [if_neg (by omega)]
      rw [send_uint16_ok _ _ (by simpa using hroom)]
      simp only
      rw [if_neg (by decide)]
      have hpos : 0 < min S chunk_size := by simp only [chunk_size]; omega
      rw [send_exact_ok _ _ _ (by simpa using hroom) hpos]
      simp only
      rw [if_neg (by omega)]
      have hle : min S chunk_size % 2 ^ 16 = min S chunk_size := by
        simp only [chunk_size]; omega
      have htake : List.take (min S chunk_size) (mem_slice (fun i =>
          (cap.getMemory w.calls.length w.ProcessId address (min S chunk_size)).2.getD i 0)
          0 (min S chunk_size)) = mem_slice (fun i =>
          (cap.getMemory w.calls.length w.ProcessId address (min S chunk_size)).2.getD i 0)
          0 (min S chunk_size) := by
        rw [List.take_of_length_le]; rw [mem_slice_length]
      rw [htake, hle]
      generalize hw3 : World.emit (World.emit (World.log w _) _) _ = w3
      have hc : w3.calls.length = w.calls.length + 1 := by rw [← hw3]; simp
      have hp : w3.ProcessId = w.ProcessId := by rw [← hw3]; simp
      have hr : w3.room = none := by rw [← hw3]; simpa using hroom
      rw [ih _ w3 hr (by simp only [chunk_size] at hpos ⊢; omega)]
      · have hfun : chunk_wire cap w3 address (S - min S chunk_size)
            = fun k => chunk_wire cap w address S (k + 1) :=
          funext (fun k => chunk_wire_shift cap w w3 address S k hc hp)
        rw [hfun]
        simp only [chunk_len_succ, hp]
        rw [chunk_count_pos S h0, List.range_succ_eq_map]
        simp only [List.flatMap_cons, List.map_cons, List.flatMap_map, List.map_map,
          List.append_assoc, List.singleton_append]
        rw [← hw3]
        simp only [chunk_wire, read_reply, hlen0, Nat.add_zero, List.append_assoc, World.emit,
          World.log, List.singleton_append]
        rfl
      · intro k hk
        rw [read_reply_shift cap w _ address S k hc hp]
        exact hok (k + 1) (by rw [chunk_count_pos S h0]; omega)
    · have : S = 0 := by omega
      subst this
      simp [chunk_count, chunk_size]

theorem get_memory_loop_fault (cap : Capability) (address : Nat) :
    ∀ (fuel S : Nat) (w : World) (k : Nat), w.room = none → S ≤ fuel → k < chunk_count S →
      (∀ i, i < k → 0 ≤ (read_reply cap w address S i).1) →
      (read_reply cap w address S k).1 < 0 →
      get_memory_loop cap address fuel S w =
        (0, { w with
              output := w.output ++
                ((List.range k).flatMap (chunk_wire cap w address S) ++ [0x00, 0x80]),
              calls := w.calls ++ (List.range (k + 1)).map
                (fun i => CapCall.getMemory w.ProcessId address (chunk_len S i)) }) := by
  intro fuel
  induction fuel with
  | zero =>
    intro S w k _ hS hk _ _
    have : S = 0 := by omega
    subst this
    simp [chunk_count, chunk_size] at hk
  | succ fuel ih =>
    intro S w k hroom hS hk hok hfail
    have h0 : S > 0 := by
      by_contra h
      have : S = 0 := by omega
      subst this
      simp [chunk_count, chunk_size] at hk
    have hlen0 : chunk_len S 0 = min S chunk_size := by simp [chunk_len]
    unfold get_memory_loop
    rw [if_pos h0]
    simp only [ccapi_read_memory]
    cases k with
    | zero =>
      simp only [read_reply, Nat.add_zero, hlen0] at hfail
      rw [if_pos hfail, send_uint16_ok _ _ (by simpa using hroom)]
      simp [World.emit, World.log, le_bytes, hlen0, List.range_succ]
    | succ k =>
      have hk0 := hok 0 (by omega)
      simp only [read_reply, Nat.add_zero, hlen0] at hk0
      rw [if_neg (by omega)]
      rw [send_uint16_ok _ _ (by simpa using hroom)]
      simp only
      rw [if_neg (by decide)]
      have hpos : 0 < min S chunk_size := by simp only [chunk_size]; omega
      rw [send_exact_ok _ _ _ (by simpa using hroom) hpos]
      simp only
      rw [if_neg (by omega)]
      have hle : min S chunk_size % 2 ^ 16 = min S chunk_size := by
        simp only [chunk_size]; omega
      have htake : List.take (min S chunk_size) (mem_slice (fun i =>
          (cap.getMemory w.calls.length w.ProcessId address (min S chunk_size)).2.getD i 0)
          0 (min S chunk_size)) = mem_slice (fun i =>
          (cap.getMemory w.calls.length w.ProcessId address (min S chunk_size)).2.getD i 0)
          0 (min S chunk_size) := by
        rw [List.take_of_length_le]; rw [mem_slice_length]
      rw [htake, hle]
      generalize hw3 : World.emit (World.emit (World.log w _) _) _ = w3
      have hc : w3.calls.length = w.calls.length + 1 := by rw [← hw3]; simp
      have hp : w3.ProcessId = w.ProcessId := by rw [← hw3]; simp
      have hr : w3.room = none := by rw [← hw3]; simpa using hroom
      rw [ih _ w3 k hr (by simp only [chunk_size] at hpos ⊢; omega)
        (by rw [chunk_count_pos S h0] at hk; omega)]
      · have hfun : chunk_wire cap w3 address (S - min S chunk_size)
            = fun k => chunk_wire cap w address S (k + 1) :=
          funext (fun k => chunk_wire_shift cap w w3 address S k hc hp)
        rw [hfun]
        simp only [chunk_len_succ, hp]
        conv_rhs => rw [flatMap_range_succ _ k, map_range_succ _ (k + 1)]
        rw [← hw3]
        simp only [chunk_wire, read_reply, hlen0, Nat.add_zero, List.append_assoc, World.emit,
          World.log, List.singleton_append]
      · intro i hi
        rw [read_reply_shift cap w _ address S i hc hp]
        exact hok (i + 1) (by omega)
      · rw [read_reply_shift cap w _ address S k hc hp]
        exact hfail

theorem emit_nil (w : World) : w.emit [] = w := by
  simp [World.emit]

theorem emit_emit (w : World) (a b : List Nat) : (w.emit a).emit b = w.emit (a ++ b) := by
  simp [World.emit]

theorem to_uint32_natCast (n : Nat) (h : n < 2 ^ 32) : to_uint32 (n : Int) = n := by
  unfold to_uint32
  omega

theorem send_string_with_tag_ok (w : World) (text : List Nat) (hroom : w.room = none)
    (hlen : c_strlen text ≤ INT_MAX) :
    send_string_with_tag w text =
      (0, w.emit (le_bytes 4 (c_strlen text) ++ text.take (c_strlen text))) := by
  unfold send_string_with_tag
  simp only
  rw [if_neg (by omega), send_int32_ok w _ hroom]
  simp only
  rw [if_neg (by decide), to_uint32_natCast _ (by simp only [INT_MAX] at hlen; omega)]
  by_cases h0 : c_strlen text = 0
  · simp [h0, send_exact, emit_nil]
  · rw [send_exact_ok _ _ _ (by simpa using hroom) (by omega)]
    simp only
    rw [if_neg (by omega), emit_emit]

theorem chunk_wire_emit (cap : Capability) (w : World) (b : List Nat) (address S : Nat) :
    chunk_wire cap (w.emit b) address S = chunk_wire cap w address S := by
  funext k; simp [chunk_wire, read_reply]

theorem read_reply_emit (cap : Capability) (w : World) (b : List Nat) (address S k : Nat) :
    read_reply cap (w.emit b) address S k = read_reply cap w address S k := by
  simp [read_reply]

theorem chunk_wire_length (cap : Capability) (w : World) (address S k : Nat) :
    (chunk_wire cap w address S k).length = 2 + chunk_len S k := by
  simp [chunk_wire, le_bytes, mem_slice_length]; omega

theorem handle_get_memory_ok (cap : Capability) (w : World) (recv_buffer : Nat → Nat)
    (hroom : w.room = none) (hmalloc : w.malloc_ok = true) :
    handle_get_memory cap w recv_buffer 8 =
      get_memory_loop cap (recv_uint32_from_buffer recv_buffer 0)
        (recv_uint32_from_buffer recv_buffer 4) (recv_uint32_from_buffer recv_buffer 4)
        (w.emit [1]) := by
  unfold handle_get_memory
  rw [if_neg (by decide), if_neg (by simp [hmalloc]), send_uint8_ok w 1 hroom]
  simp only
  rw [if_neg (by decide)]

theorem process_packet_get_memory (cap : Capability) (w : World) (recv_buffer : Nat → Nat)
    (cb_recv_buffer : Int) :
    process_packet cap w 10 recv_buffer cb_recv_buffer =
      (if (handle_get_memory cap w recv_buffer cb_recv_buffer).1 ≠ 0 then
        (1, (handle_get_memory cap w recv_buffer cb_recv_buffer).2)
      else (0, (handle_get_memory cap w recv_buffer cb_recv_buffer).2)) := by
  unfold process_packet
  rfl

theorem process_packet_get_memory_ok (cap : Capability) (w : World) (recv_buffer : Nat → Nat)
    (hroom : w.room = none) (hmalloc : w.malloc_ok = true)
    (hok : ∀ k, k < chunk_count (recv_uint32_from_buffer recv_buffer 4) →
      0 ≤ (read_reply cap w (recv_uint32_from_buffer recv_buffer 0)
        (recv_uint32_from_buffer recv_buffer 4) k).1) :
    process_packet cap w 10 recv_buffer 8 =
        (0, { w with
              output := w.output ++ 1 ::
                (List.range (chunk_count (recv_uint32_from_buffer recv_buffer 4))).flatMap
                  (chunk_wire cap w (recv_uint32_from_buffer recv_buffer 0)
                    (recv_uint32_from_buffer recv_buffer 4)),
              calls := w.calls ++
                (List.range (chunk_count (recv_uint32_from_buffer recv_buffer 4))).map
                  (fun k => CapCall.getMemory w.ProcessId (recv_uint32_from_buffer recv_buffer 0)
                    (chunk_len (recv_uint32_from_buffer recv_buffer 4) k)) }) := by
  rw [process_packet_get_memory, handle_get_memory_ok cap w recv_buffer hroom hmalloc,
    get_memory_loop_ok cap _ _ _ (w.emit [1]) (by simpa using hroom) (le_refl _)
      (by intro k hk; rw [read_reply_emit]; exact hok k hk)]
  simp only [chunk_wire_emit, emit_ProcessId, emit_calls, emit_output]
  simp [World.emit]

theorem mem_slice_getD (mem : Nat → Nat) (a n : Nat) :
    mem_slice (fun i => (mem_slice mem a n).getD i 0) 0 n = mem_slice mem a n := by
  unfold mem_slice
  apply List.map_congr_left
  intro i hi
  have hi' : i < n := List.mem_range.mp hi
  simp [List.getD_eq_getElem?_getD, List.getElem?_map, List.getElem?_range hi']

theorem get_memory_loop_ret (cap : Capability) (address : Nat) :
    ∀ (fuel S : Nat) (w : World), w.room = none →
      (get_memory_loop cap address fuel S w).1 = 0 := by
  intro fuel
  induction fuel with
  | zero => intro S w _; rfl
  | succ fuel ih =>
    intro S w hroom
    unfold get_memory_loop
    by_cases h0 : S > 0
    · rw [if_pos h0]
      simp only [ccapi_read_memory]
      by_cases h1 : (cap.getMemory w.calls.length w.ProcessId address (min S chunk_size)).1 < 0
      · rw [if_pos h1]
      · rw [if_neg h1]
        rw [send_uint16_ok _ _ (by simpa using hroom)]
        simp only
        rw [if_neg (by decide)]
        have hpos : 0 < min S chunk_size := by simp only [chunk_size]; omega
        rw [send_exact_ok _ _ _ (by simpa using hroom) hpos]
        simp only
        rw [if_neg (by omega)]
        exact ih _ _ (by simpa using hroom)
    · rw [if_neg h0]

theorem ccapi_init_room (cap : Capability) (w : World) : (ccapi_init cap w).2.room = w.room := by
  unfold ccapi_init
  split
  · rfl
  · rcases cap.loadLibrary w.calls.length with ⟨handle, symbols⟩
    simp only
    split <;> rfl

theorem find_game_scan_room (cap : Capability) (pid_array : List Nat) :
    ∀ (n i found_pid : Nat) (name_buffer : Option (List Nat)) (w : World),
      (find_game_scan cap pid_array n i found_pid name_buffer w).2.2.2.room = w.room := by
  intro n
  induction n with
  | zero => intro i f nb w; rfl
  | succ n ih =>
    intro i f nb w
    unfold find_game_scan
    simp only [ccapi_get_process_name]
    split_ifs
    all_goals first
      | rfl
      | (rw [ih]; rfl)

theorem ccapi_find_game_process_room (cap : Capability) (w : World) (found_pid : Nat)
    (name_buffer : Option (List Nat)) :
    (ccapi_find_game_process cap w found_pid name_buffer).2.2.2.room = w.room := by
  unfold ccapi_find_game_process
  simp only [ccapi_get_process_list]
  split_ifs
  · rfl
  · rw [find_game_scan_room]; rfl

theorem process_packet_setup_ret (cap : Capability) (w : World) (recv_buffer : Nat → Nat)
    (cb : Int) (hroom : w.room = none) : (process_packet cap w 1 recv_buffer cb).1 = 0 := by
  simp [process_packet, handle_setup, send_uint8_ok, ccapi_init_room, hroom]

theorem send_exact_natCast (w : World) (buffer : List Nat) (n : Nat) (hroom : w.room = none) :
    send_exact w buffer (n : Int) = ((n : Int), w.emit (buffer.take n)) := by
  by_cases h0 : n = 0
  · subst h0; simp [send_exact, emit_nil]
  · exact send_exact_ok w buffer n hroom (by omega)

theorem send_buffer_with_tag_ok (w : World) (data : List Nat) (n : Nat) (hroom : w.room = none) :
    send_buffer_with_tag w data (n : Int) =
      ((n : Int) + 4, w.emit (le_bytes 4 (to_uint32 (n : Int)) ++ data.take n)) := by
  unfold send_buffer_with_tag
  rw [send_int32_ok w _ hroom]
  simp only
  rw [if_neg (by decide), send_exact_natCast _ _ _ (by simpa using hroom)]
  simp only
  rw [if_neg (by omega), emit_emit]

theorem process_packet_self_test_ret (cap : Capability) (w : World) (recv_buffer : Nat → Nat)
    (cb : Int) (hroom : w.room = none) (hmalloc : w.malloc_ok = true) :
    (process_packet cap w 3 recv_buffer cb).1 = 0 := by
  have hlit : c_strlen (c_literal "This is param 1!!!") ≤ INT_MAX := by decide
  by_cases hcb : cb > 0
  · have hnn : ¬ ((recv_uint16_from_buffer recv_buffer 0 : Int) + 4 < 0) := by omega
    simp [process_packet, hcb, send_uint8_ok, send_int32_ok, send_string_with_tag_ok, hroom,
      hmalloc, hlit, recv_u16tagged_into_new_buffer, send_buffer_with_tag_ok, hnn]
  · simp [process_packet, hcb, send_uint8_ok, send_int32_ok, send_string_with_tag_ok, hroom,
      hlit]

theorem process_packet_connect_ret (cap : Capability) (w : World) (recv_buffer : Nat → Nat)
    (cb : Int) (hroom : w.room = none) (hmalloc : w.malloc_ok = true) (hcb : 2 ≤ cb) :
    (process_packet cap w 4 recv_buffer cb).1 = 0 := by
  have h : ¬ cb < 2 := by omega
  simp [process_packet, h, send_uint8_ok, send_int32_ok, hroom, hmalloc,
    recv_u16tagged_into_new_buffer, ccapi_connect]

theorem process_packet_disconnect_ret (cap : Capability) (w : World) (recv_buffer : Nat → Nat)
    (cb : Int) (hroom : w.room = none) :
    (process_packet cap w 5 recv_buffer cb).1 = 0 := by
  simp [process_packet, send_uint8_ok, send_int32_ok, hroom, ccapi_disconnect]

theorem to_size_t_of_nonneg (x : Int) (h0 : 0 ≤ x) (h1 : x ≤ 0x10000) : to_size_t x = x.toNat := by
  unfold to_size_t
  omega

theorem process_packet_set_memory_ret (cap : Capability) (w : World) (recv_buffer : Nat → Nat)
    (cb : Int) (hroom : w.room = none) (hcb : 4 ≤ cb) (hmax : cb ≤ 0x10000) :
    (process_packet cap w 9 recv_buffer cb).1 = 0 := by
  have h : ¬ to_size_t cb < 4 := by rw [to_size_t_of_nonneg cb (by omega) hmax]; omega
  simp [process_packet, handle_set_memory, h, send_uint8_ok, send_int32_ok, hroom,
    ccapi_write_memory]

theorem process_packet_get_memory_ret (cap : Capability) (w : World) (recv_buffer : Nat → Nat)
    (hroom : w.room = none) (hmalloc : w.malloc_ok = true) :
    (process_packet cap w 10 recv_buffer 8).1 = 0 := by
  rw [process_packet_get_memory, handle_get_memory_ok cap w recv_buffer hroom hmalloc]
  have := get_memory_loop_ret cap (recv_uint32_from_buffer recv_buffer 0)
    (recv_uint32_from_buffer recv_buffer 4) (recv_uint32_from_buffer recv_buffer 4) (w.emit [1])
    (by simpa using hroom)
  simp [this]

theorem process_packet_attach_ret (cap : Capability) (w : World) (recv_buffer : Nat → Nat)
    (cb : Int) (hroom : w.room = none) (hcb : 4 ≤ cb) :
    (process_packet cap w 22 recv_buffer cb).1 = 0 := by
  have h : ¬ cb < 4 := by omega
  simp [process_packet, h, send_uint8_ok, send_uint32_ok, hroom, ccapi_attach_process]

theorem process_list_loop_ok (cap : Capability) (first : Nat) (pid_array : List Nat) :
    ∀ (n i : Nat) (w : World), w.room = none → w.calls.length = first + i →
      (∀ j, j < n → (name_reply cap first pid_array (i + j)).1 = 0 ∧
        c_strlen (name_value cap first pid_array (i + j)) ≤ INT_MAX) →
      process_list_loop cap pid_array n i w =
        (0, { w with
              output := w.output ++
                (List.range n).flatMap (fun j => process_wire cap first pid_array (i + j)),
              calls := w.calls ++ (List.range n).map
                (fun j => CapCall.getProcessName (pid_array.getD (i + j) 0 % 2 ^ 32)) }) := by
  intro n
  induction n with
  | zero => intro i w _ _ _; simp [process_list_loop]
  | succ n ih =>
    intro i w hroom hcalls hok
    have h0 := hok 0 (by omega)
    simp only [name_reply, name_value, Nat.add_zero, ← hcalls] at h0
    unfold process_list_loop
    simp only [ccapi_get_process_name]
    rw [if_neg (by rw [h0.1]; decide), send_uint32_ok _ _ (by simpa using hroom)]
    simp only
    rw [if_neg (by decide), send_string_with_tag_ok _ _ (by simpa using hroom) h0.2]
    simp only
    rw [if_neg (by decide)]
    generalize hw3 : World.emit (World.emit (World.log w _) _) _ = w3
    have hc : w3.calls.length = first + (i + 1) := by rw [← hw3]; simp [hcalls]; omega
    have hr : w3.room = none := by rw [← hw3]; simpa using hroom
    have hshift : ∀ j, i + 1 + j = i + (j + 1) := fun j => by omega
    rw [ih (i + 1) w3 hr hc (by intro j hj; rw [hshift]; exact hok (j + 1) (by omega))]
    conv_rhs => rw [flatMap_range_succ _ n, map_range_succ _ n]
    simp only [hshift]
    rw [← hw3]
    simp only [process_wire, name_value, name_reply, Nat.add_zero, ← hcalls, World.emit, World.log,
      List.append_assoc, List.singleton_append, Nat.mod_mod]

theorem process_list_loop_fault (cap : Capability) (first : Nat) (pid_array : List Nat) :
    ∀ (n i : Nat) (w : World) (j : Nat), w.room = none → w.calls.length = first + i → j < n →
      (∀ l, l < j → (name_reply cap first pid_array (i + l)).1 = 0 ∧
        c_strlen (name_value cap first pid_array (i + l)) ≤ INT_MAX) →
      (name_reply cap first pid_array (i + j)).1 ≠ 0 →
      process_list_loop cap pid_array n i w =
        (-1, { w with
              output := w.output ++
                (List.range j).flatMap (fun l => process_wire cap first pid_array (i + l)),
              calls := w.calls ++ (List.range (j + 1)).map
                (fun l => CapCall.getProcessName (pid_array.getD (i + l) 0 % 2 ^ 32)) }) := by
  intro n
  induction n with
  | zero => intro i w j _ _ hj; omega
  | succ n ih =>
    intro i w j hroom hcalls hj hok hfail
    unfold process_list_loop
    simp only [ccapi_get_process_name]
    cases j with
    | zero =>
      simp only [name_reply, Nat.add_zero, ← hcalls] at hfail
      rw [if_pos (by simpa [CCAPI_OK] using hfail)]
      simp [World.log, List.range_succ]
    | succ j =>
      have h0 := hok 0 (by omega)
      simp only [name_reply, name_value, Nat.add_zero, ← hcalls] at h0
      rw [if_neg (by rw [h0.1]; decide), send_uint32_ok _ _ (by simpa using hroom)]
      simp only
      rw [if_neg (by decide), send_string_with_tag_ok _ _ (by simpa using hroom) h0.2]
      simp only
      rw [if_neg (by decide)]
      generalize hw3 : World.emit (World.emit (World.log w _) _) _ = w3
      have hc : w3.calls.length = first + (i + 1) := by rw [← hw3]; simp [hcalls]; omega
      have hr : w3.room = none := by rw [← hw3]; simpa using hroom
      have hshift : ∀ l, i + 1 + l = i + (l + 1) := fun l => by omega
      rw [ih (i + 1) w3 j hr hc (by omega)
        (by intro l hl; rw [hshift]; exact hok (l + 1) (by omega))
        (by rw [hshift]; exact hfail)]
      conv_rhs => rw [flatMap_range_succ _ j, map_range_succ _ (j + 1)]
      simp only [hshift]
      rw [← hw3]
      simp only [process_wire, name_value, name_reply, Nat.add_zero, ← hcalls, World.emit,
        World.log, List.append_assoc, List.singleton_append, Nat.mod_mod]

theorem process_packet_process_list (cap : Capability) (w : World) (recv_buffer : Nat → Nat)
    (cb : Int) :
    process_packet cap w 24 recv_buffer cb =
      (if (cap.getProcessList w.calls.length).1 ≠ CCAPI_OK then
        (-1, w.log CapCall.getProcessList)
      else if (send_uint8 (w.log CapCall.getProcessList)
          ((cap.getProcessList w.calls.length).2.1 % 2 ^ 32)).1 < 0 then
        send_uint8 (w.log CapCall.getProcessList) ((cap.getProcessList w.calls.length).2.1 % 2 ^ 32)
      else
        process_list_loop cap (cap.getProcessList w.calls.length).2.2
          ((cap.getProcessList w.calls.length).2.1 % 2 ^ 32) 0
          (send_uint8 (w.log CapCall.getProcessList)
            ((cap.getProcessList w.calls.length).2.1 % 2 ^ 32)).2) := by
  unfold process_packet
  rfl

theorem recv_exact_from_network_length (input : List Nat) (buffer : Nat → Nat) (count : Int) :
    (recv_exact_from_network input buffer count).2.1.length ≤ input.length ∧
      (0 < count → 0 ≤ (recv_exact_from_network input buffer count).1 →
        (recv_exact_from_network input buffer count).2.1.length < input.length) := by
  unfold recv_exact_from_network
  split_ifs with h1 h2
  · exact ⟨le_refl _, fun h => by omega⟩
  · exact ⟨by simp, fun _ h => by simp at h⟩
  · refine ⟨by simp, fun h _ => ?_⟩
    simp only [List.length_drop]
    omega

theorem run_network_loop_fuel_total (cap : Capability) :
    ∀ (fuel : Nat) (c : Conn), c.input.length < fuel →
      ∃ r, run_network_loop_fuel cap fuel c = some r := by
  intro fuel
  induction fuel with
  | zero => intro c h; omega
  | succ fuel ih =>
    intro c hfuel
    unfold run_network_loop_fuel
    have hhdr := recv_exact_from_network_length c.input c.buffer 8
    rcases hrecv : recv_exact_from_network c.input c.buffer 8 with ⟨r, input1, buffer1⟩
    rw [hrecv] at hhdr
    simp only at hhdr ⊢
    by_cases h1 : r < 0
    · rw [if_pos h1]; exact ⟨_, rfl⟩
    rw [if_neg h1]
    by_cases h2 : recv_int32_from_buffer buffer1 0 < 0
    · rw [if_pos h2]; exact ⟨_, rfl⟩
    rw [if_neg h2]
    by_cases h3 : recv_int32_from_buffer buffer1 4 < 0 ∨ recv_int32_from_buffer buffer1 4 > 0x10000
    · rw [if_pos h3]; exact ⟨_, rfl⟩
    rw [if_neg h3]
    have hpay : ∀ x : Int × List Nat × (Nat → Nat),
        x = (if recv_int32_from_buffer buffer1 4 > 0 then
            recv_exact_from_network input1 buffer1 (recv_int32_from_buffer buffer1 4)
          else (0, input1, buffer1)) → x.2.1.length ≤ input1.length := by
      intro x hx
      rw [hx]
      split_ifs
      · exact (recv_exact_from_network_length input1 buffer1 _).1
      · exact le_refl _
    rcases hp : (if recv_int32_from_buffer buffer1 4 > 0 then
            recv_exact_from_network input1 buffer1 (recv_int32_from_buffer buffer1 4)
          else (0, input1, buffer1)) with ⟨r2, input2, buffer2⟩
    have hlen2 := hpay _ hp.symm
    simp only at hlen2 ⊢
    by_cases h4 : r2 < 0
    · rw [if_pos h4]; exact ⟨_, rfl⟩
    rw [if_neg h4]
    split_ifs
    · exact ⟨_, rfl⟩
    · apply ih
      have hq := hhdr.2 (by decide) (by omega)
      simp only
      omega

/-- Every run of the loop ends: the fuel of `run_network_loop` never runs out. -/
theorem run_network_loop_total (cap : Capability) (c : Conn) :
    ∃ r, run_network_loop cap c = some r :=
  run_network_loop_fuel_total cap _ c (Nat.lt_succ_self _)

theorem get_memory_loop_fuel_irrelevant (cap : Capability) (address : Nat) :
    ∀ (fuel1 fuel2 S : Nat) (w : World), S ≤ fuel1 → S ≤ fuel2 →
      get_memory_loop cap address fuel1 S w = get_memory_loop cap address fuel2 S w := by
  intro fuel1
  induction fuel1 with
  | zero =>
    intro fuel2 S w h1 _
    have : S = 0 := by omega
    subst this
    cases fuel2 <;> simp [get_memory_loop]
  | succ fuel1 ih =>
    intro fuel2 S w h1 h2
    cases fuel2 with
    | zero =>
      have : S = 0 := by omega
      subst this
      simp [get_memory_loop]
    | succ fuel2 =>
      unfold get_memory_loop
      by_cases h0 : S > 0
      · have hmin : 0 < min S chunk_size := by simp only [chunk_size]; omega
        have key : ∀ w3, get_memory_loop cap address fuel1 (S - min S chunk_size) w3 =
            get_memory_loop cap address fuel2 (S - min S chunk_size) w3 :=
          fun w3 => ih fuel2 _ w3 (by omega) (by omega)
        simp only [key]
      · rw [if_neg h0, if_neg h0]

theorem chunk_len_sum : ∀ S : Nat, ((List.range (chunk_count S)).map (chunk_len S)).sum = S := by
  intro S
  induction S using Nat.strong_induction_on with
  | _ S ih =>
    by_cases h0 : S = 0
    · subst h0; decide
    · have hpos : 0 < S := by omega
      have hlt : S - min S chunk_size < S := by simp only [chunk_size]; omega
      rw [chunk_count_pos S hpos, map_range_succ]
      have hfun : (fun k => chunk_len S (k + 1)) = chunk_len (S - min S chunk_size) :=
        funext (fun k => (chunk_len_succ S k).symm)
      rw [hfun, List.sum_cons, ih _ hlt]
      simp only [chunk_len, chunk_size]
      omega

theorem get_memory_loop_output (cap : Capability) (address : Nat) :
    ∀ (fuel S : Nat) (w : World), w.room = none →
      ∃ rest, (get_memory_loop cap address fuel S w).2.output = w.output ++ rest := by
  intro fuel
  induction fuel with
  | zero => intro S w _; exact ⟨[], by simp [get_memory_loop]⟩
  | succ fuel ih =>
    intro S w hroom
    unfold get_memory_loop
    by_cases h0 : S > 0
    · rw [if_pos h0]
      simp only [ccapi_read_memory]
      by_cases h1 : (cap.getMemory w.calls.length w.ProcessId address (min S chunk_size)).1 < 0
      · rw [if_pos h1, send_uint16_ok _ _ (by simpa using hroom)]
        exact ⟨_, rfl⟩
      · rw [if_neg h1]
        rw [send_uint16_ok _ _ (by simpa using hroom)]
        simp only
        rw [if_neg (by decide)]
        have hpos : 0 < min S chunk_size := by simp only [chunk_size]; omega
        rw [send_exact_ok _ _ _ (by simpa using hroom) hpos]
        simp only
        rw [if_neg (by omega)]
        obtain ⟨rest, hrest⟩ := ih (S - min S chunk_size) _
          (show (((w.log (CapCall.getMemory w.ProcessId address (min S chunk_size))).emit
            (le_bytes 2 (min S chunk_size % 2 ^ 16))).emit
            (List.take (min S chunk_size) (mem_slice (fun i =>
              (cap.getMemory w.calls.length w.ProcessId address (min S chunk_size)).2.getD i 0)
              0 (min S chunk_size)))).room = none by simpa using hroom)
        rw [hrest]
        simp only [emit_output, log_output, List.append_assoc]
        exact ⟨_, rfl⟩
    · rw [if_neg h0]
      exact ⟨[], by simp⟩

theorem le_bytes_uint32_roundtrip (buffer : Nat → Nat) (v : Nat) (rest : List Nat)
    (h : v < 2 ^ 32) : recv_uint32_from_buffer (mem_store buffer (le_bytes 4 v ++ rest)) 0 = v := by
  simp [recv_uint32_from_buffer, mem_store, le_bytes]
  omega

theorem recv_exact_append (data rest : List Nat) (buffer : Nat → Nat) (n : Nat)
    (hlen : data.length = n) (hpos : 0 < n) :
    recv_exact_from_network (data ++ rest) buffer (n : Int) = ((n : Int), rest, mem_store buffer data) := by
  have h1 : ¬ ((n : Int) ≤ 0) := by omega
  simp [recv_exact_from_network, h1, hlen, List.take_append_of_le_length,
    List.drop_append_of_le_length]

theorem process_packet_attach_ok (cap : Capability) (w : World) (recv_buffer : Nat → Nat)
    (cb : Int) (hroom : w.room = none) (hcb : 4 ≤ cb) :
    process_packet cap w 22 recv_buffer cb =
      (0, { w with
            ProcessId := recv_uint32_from_buffer recv_buffer 0,
            output := w.output ++ 1 :: le_bytes 4 (w.ProcessId % 2 ^ 32) }) := by
  have h : ¬ cb < 4 := by omega
  simp [process_packet, h, send_uint8_ok, send_uint32_ok, hroom, ccapi_attach_process,
    ccapi_get_attached_process, World.emit]

theorem attach_loop (cap : Capability) :
    ∀ (pids : List Nat) (fuel : Nat) (c : Conn), (∀ p ∈ pids, p < 2 ^ 32) →
      c.world.room = none → c.world.ProcessId < 2 ^ 32 → c.input = pids.flatMap attach_frame →
      c.input.length < fuel →
      ∃ c', run_network_loop_fuel cap fuel c = some (0, c') ∧
        c'.world.output = c.world.output ++
          ((c.world.ProcessId :: pids).dropLast).flatMap (fun prev => 1 :: le_bytes 4 prev) ∧
        c'.world.calls = c.world.calls ∧
        c'.world.ProcessId = pids.getLastD c.world.ProcessId ∧
        c'.packets = c.packets ++ pids.map (fun _ => ((22 : Int), (4 : Int))) ∧
        c'.input = [] := by
  intro pids
  induction pids with
  | nil =>
    intro fuel c _ _ _ hin hfuel
    obtain ⟨fuel, rfl⟩ : ∃ f, fuel = f + 1 := ⟨fuel - 1, by omega⟩
    simp only [List.flatMap_nil] at hin
    unfold run_network_loop_fuel
    simp [hin, recv_exact_from_network]
  | cons p ps ih =>
    intro fuel c hp hroom hpid hin hfuel
    obtain ⟨fuel, rfl⟩ : ∃ f, fuel = f + 1 := ⟨fuel - 1, by omega⟩
    have hin2 : c.input = [22, 0, 0, 0, 4, 0, 0, 0] ++ (le_bytes 4 p ++ ps.flatMap attach_frame) := by
      rw [hin]; simp [attach_frame, le_bytes]
    have hplt : p < 2 ^ 32 := hp p (by simp)
    unfold run_network_loop_fuel
    rw [hin2, recv_exact_header [22, 0, 0, 0, 4, 0, 0, 0] _ _ rfl]
    have hcmd : recv_int32_from_buffer (mem_store c.buffer [22, 0, 0, 0, 4, 0, 0, 0]) 0 = 22 := by
      simp [recv_int32_from_buffer, recv_uint32_from_buffer, mem_store]
    have hcb : recv_int32_from_buffer (mem_store c.buffer [22, 0, 0, 0, 4, 0, 0, 0]) 4 = 4 := by
      simp [recv_int32_from_buffer, recv_uint32_from_buffer, mem_store]
    simp only [hcmd, hcb]
    have hrecv := recv_exact_append (le_bytes 4 p) (ps.flatMap attach_frame)
      (mem_store c.buffer [22, 0, 0, 0, 4, 0, 0, 0]) 4 (by simp [le_bytes]) (by decide)
    simp only [Nat.cast_ofNat] at hrecv
    rw [if_neg (show ¬ ((8 : Int) < 0) by decide), if_neg (show ¬ ((22 : Int) < 0) by decide),
      if_neg (show ¬ ((4 : Int) < 0 ∨ (4 : Int) > 0x10000) by decide),
      if_pos (show (4 : Int) > 0 by decide), hrecv]
    simp only
    rw [if_neg (show ¬ ((4 : Int) < 0) by decide),
      process_packet_attach_ok cap c.world _ 4 hroom (by decide)]
    simp only
    rw [if_neg (show ¬ ((0 : Int) ≠ 0) by decide)]
    have hdec : recv_uint32_from_buffer
        (mem_store (mem_store c.buffer [22, 0, 0, 0, 4, 0, 0, 0]) (le_bytes 4 p)) 0 = p := by
      have := le_bytes_uint32_roundtrip (mem_store c.buffer [22, 0, 0, 0, 4, 0, 0, 0]) p [] hplt
      simpa using this
    obtain ⟨c', h1, h2, h3, h4, h5, h6⟩ := ih fuel
      { input := ps.flatMap attach_frame,
        buffer := mem_store (mem_store c.buffer [22, 0, 0, 0, 4, 0, 0, 0]) (le_bytes 4 p),
        world := { c.world with
          ProcessId := recv_uint32_from_buffer
            (mem_store (mem_store c.buffer [22, 0, 0, 0, 4, 0, 0, 0]) (le_bytes 4 p)) 0,
          output := c.world.output ++ 1 :: le_bytes 4 (c.world.ProcessId % 2 ^ 32) },
        packets := c.packets ++ [(22, 4)] }
      (fun q hq => hp q (by simp [hq])) hroom (by simp only [hdec]; exact hplt) rfl
      (by
        rw [hin2] at hfuel
        simp only [List.length_append, List.length_cons, List.length_nil] at hfuel
        simp only
        omega)
    refine ⟨c', h1, ?_, ?_, ?_, ?_, h6⟩
    · rw [h2]
      simp only [hdec, Nat.mod_eq_of_lt hpid]
      cases ps with
      | nil => simp
      | cons q qs => simp
    · rw [h3]
    · rw [h4]
      simp only [hdec]
      cases ps with
      | nil => simp
      | cons q qs => simp [List.getLastD]
    · rw [h5]
      simp

theorem run_network_loop_fuel_irrelevant (cap : Capability) :
    ∀ (fuel1 fuel2 : Nat) (c : Conn), c.input.length < fuel1 → c.input.length < fuel2 →
      run_network_loop_fuel cap fuel1 c = run_network_loop_fuel cap fuel2 c := by
  intro fuel1
  induction fuel1 with
  | zero => intro fuel2 c h; omega
  | succ fuel1 ih =>
    intro fuel2 c h1 h2
    obtain ⟨fuel2, rfl⟩ : ∃ f, fuel2 = f + 1 := ⟨fuel2 - 1, by omega⟩
    unfold run_network_loop_fuel
    have hhdr := recv_exact_from_network_length c.input c.buffer 8
    rcases hrecv : recv_exact_from_network c.input c.buffer 8 with ⟨r, input1, buffer1⟩
    rw [hrecv] at hhdr
    simp only at hhdr ⊢
    by_cases hr : r < 0
    · rw [if_pos hr, if_pos hr]
    rw [if_neg hr, if_neg hr]
    by_cases hc : recv_int32_from_buffer buffer1 0 < 0
    · rw [if_pos hc, if_pos hc]
    rw [if_neg hc, if_neg hc]
    by_cases hb : recv_int32_from_buffer buffer1 4 < 0 ∨ recv_int32_from_buffer buffer1 4 > 0x10000
    · rw [if_pos hb, if_pos hb]
    rw [if_neg hb, if_neg hb]
    have hpay : ∀ x : Int × List Nat × (Nat → Nat),
        x = (if recv_int32_from_buffer buffer1 4 > 0 then
            recv_exact_from_network input1 buffer1 (recv_int32_from_buffer buffer1 4)
          else (0, input1, buffer1)) → x.2.1.length ≤ input1.length := by
      intro x hx
      rw [hx]
      split_ifs
      · exact (recv_exact_from_network_length input1 buffer1 _).1
      · exact le_refl _
    rcases hp : (if recv_int32_from_buffer buffer1 4 > 0 then
            recv_exact_from_network input1 buffer1 (recv_int32_from_buffer buffer1 4)
          else (0, input1, buffer1)) with ⟨r2, input2, buffer2⟩
    have hlen2 := hpay _ hp.symm
    simp only at hlen2 ⊢
    by_cases h4 : r2 < 0
    · rw [if_pos h4, if_pos h4]
    rw [if_neg h4, if_neg h4]
    have hq := hhdr.2 (by decide) (by omega)
    split_ifs
    · rfl
    · exact ih fuel2 _ (by simp only; omega) (by simp only; omega)

theorem mem_store_nil (buffer : Nat → Nat) : mem_store buffer [] = buffer := by
  funext i
  simp [mem_store]

theorem le_bytes_int32_roundtrip (buffer : Nat → Nat) (a b : Nat) (ha : a < 2 ^ 31)
    (hb : b < 2 ^ 31) :
    recv_int32_from_buffer (mem_store buffer (le_bytes 4 a ++ le_bytes 4 b)) 0 = (a : Int) ∧
      recv_int32_from_buffer (mem_store buffer (le_bytes 4 a ++ le_bytes 4 b)) 4 = (b : Int) := by
  have h0 : recv_uint32_from_buffer (mem_store buffer (le_bytes 4 a ++ le_bytes 4 b)) 0 = a := by
    simp [recv_uint32_from_buffer, mem_store, le_bytes]
    omega
  have h4 : recv_uint32_from_buffer (mem_store buffer (le_bytes 4 a ++ le_bytes 4 b)) 4 = b := by
    simp [recv_uint32_from_buffer, mem_store, le_bytes]
    omega
  unfold recv_int32_from_buffer
  simp only [h0, h4]
  exact ⟨if_pos ha, if_pos hb⟩

/-- One iteration of the loop on a well-formed frame `(cmd, n, payload)`: the payload is received over the header, the packet goes to `process_packet`, and the loop ends with its result when that is not 0 and otherwise goes on with what the peer sends next. -/
theorem run_network_loop_frame (cap : Capability) (c : Conn) (cmd n : Nat)
    (payload rest : List Nat) (hcmd : cmd < 2 ^ 31) (hn : n ≤ 0x10000)
    (hlen : payload.length = n)
    (hin : c.input = le_bytes 4 cmd ++ le_bytes 4 n ++ payload ++ rest) :
    run_network_loop cap c =
      if (process_packet cap c.world (cmd : Int)
          (mem_store (mem_store c.buffer (le_bytes 4 cmd ++ le_bytes 4 n)) payload) (n : Int)).1 ≠ 0
      then
        some ((process_packet cap c.world (cmd : Int)
            (mem_store (mem_store c.buffer (le_bytes 4 cmd ++ le_bytes 4 n)) payload) (n : Int)).1,
          { input := rest,
            buffer := mem_store (mem_store c.buffer (le_bytes 4 cmd ++ le_bytes 4 n)) payload,
            packets := c.packets ++ [((cmd : Int), (n : Int))],
            world := (process_packet cap c.world (cmd : Int)
              (mem_store (mem_store c.buffer (le_bytes 4 cmd ++ le_bytes 4 n)) payload)
              (n : Int)).2 })
      else
        run_network_loop cap
          { input := rest,
            buffer := mem_store (mem_store c.buffer (le_bytes 4 cmd ++ le_bytes 4 n)) payload,
            packets := c.packets ++ [((cmd : Int), (n : Int))],
            world := (process_packet cap c.world (cmd : Int)
              (mem_store (mem_store c.buffer (le_bytes 4 cmd ++ le_bytes 4 n)) payload)
              (n : Int)).2 } := by
  have hrt := le_bytes_int32_roundtrip c.buffer cmd n hcmd (by omega)
  have hin2 : c.input = (le_bytes 4 cmd ++ le_bytes 4 n) ++ (payload ++ rest) := by
    rw [hin]; simp
  have hlen8 : (le_bytes 4 cmd ++ le_bytes 4 n).length = 8 := by simp [le_bytes]
  have hfuel : ∀ (m : Nat) (c2 : Conn), c2.input.length < m →
      run_network_loop_fuel cap m c2 = run_network_loop cap c2 := by
    intro m c2 h2
    unfold run_network_loop
    exact run_network_loop_fuel_irrelevant cap _ _ c2 h2 (Nat.lt_succ_self _)
  rw [show run_network_loop cap c = run_network_loop_fuel cap (c.input.length + 1) c from rfl,
    run_network_loop_fuel]
  rw [hin2, recv_exact_header _ _ _ hlen8]
  simp only [hrt.1, hrt.2]
  rw [if_neg (show ¬ ((8 : Int) < 0) by decide), if_neg (show ¬ ((cmd : Int) < 0) by omega),
    if_neg (show ¬ ((n : Int) < 0 ∨ (n : Int) > 0x10000) by omega)]
  by_cases h0 : n = 0
  · subst h0
    have hp : payload = [] := List.length_eq_zero.mp hlen
    subst hp
    rw [if_neg (show ¬ (((0 : Nat) : Int) > 0) by decide)]
    simp only [mem_store_nil, List.nil_append]
    rw [if_neg (show ¬ ((0 : Int) < 0) by decide)]
    rw [hfuel _ _ (by simp only [List.length_append, hlen8]; omega)]
  · rw [if_pos (show ((n : Nat) : Int) > 0 by omega),
      recv_exact_append payload rest _ n hlen (by omega)]
    simp only
    rw [if_neg (show ¬ ((n : Int) < 0) by omega)]
    rw [hfuel _ _ (by simp only [List.length_append, hlen8]; omega)]

theorem process_packet_set_memory (cap : Capability) (w : World) (recv_buffer : Nat → Nat)
    (cb_recv_buffer : Int) :
    process_packet cap w 9 recv_buffer cb_recv_buffer =
      (if (handle_set_memory cap w recv_buffer cb_recv_buffer).1 ≠ 0 then
        (1, (handle_set_memory cap w recv_buffer cb_recv_buffer).2)
      else (0, (handle_set_memory cap w recv_buffer cb_recv_buffer).2)) := by
  unfold process_packet
  rfl

theorem recv_uint16_roundtrip (buffer : Nat → Nat) (L : Nat) (rest : List Nat) (h : L < 2 ^ 16) :
    recv_uint16_from_buffer (mem_store buffer (le_bytes 2 L ++ rest)) 0 = L := by
  simp [recv_uint16_from_buffer, mem_store, le_bytes]
  omega

theorem mem_slice_mem_store (buffer : Nat → Nat) (pre data : List Nat)
    (hbytes : ∀ b ∈ data, b < 256) :
    mem_slice (mem_store buffer (pre ++ data)) pre.length data.length = data := by
  apply List.ext_getElem
  · simp [mem_slice]
  · intro i h1 h2
    have hb : data[i] < 256 := hbytes _ (List.getElem_mem h2)
    simp only [mem_slice, List.getElem_map, List.getElem_range, mem_store, List.length_append]
    rw [if_pos (by omega), List.getD_eq_getElem?_getD,
      List.getElem?_append_right (by omega)]
    simp only [Nat.add_sub_cancel_left, List.getElem?_eq_getElem h2, Option.getD_some]
    exact Nat.mod_eq_of_lt hb

theorem c_strstr_iff_contains (hay needle : List Nat) :
    c_strstr hay needle = true ↔ needle <:+: hay := by
  induction hay with
  | nil => simp [c_strstr, List.isEmpty_iff]
  | cons c hay ih =>
    rw [c_strstr, Bool.or_eq_true, ih, List.infix_cons_iff, List.isPrefixOf_iff_prefix]

theorem take_c_strlen (s : List Nat) :
    s.take (c_strlen s) = s.takeWhile (fun c => c % 256 != 0) := by
  unfold c_strlen
  exact (List.prefix_iff_eq_take.mp (List.takeWhile_prefix _)).symm

theorem c_strlen_take_c_strlen (s : List Nat) : c_strlen (s.take (c_strlen s)) = c_strlen s := by
  rw [take_c_strlen]
  unfold c_strlen
  rw [List.takeWhile_idem]

theorem c_strlen_le_length (s : List Nat) : c_strlen s ≤ s.length := by
  unfold c_strlen
  exact (List.takeWhile_sublist _).length_le

theorem find_game_scan_skip (cap : Capability) (first : Nat) (pid_array : List Nat) :
    ∀ (j m i found_pid : Nat) (name_buffer : Option (List Nat)) (w : World),
      w.calls.length = first + i →
      (∀ l, l < j → (name_reply cap first pid_array (i + l)).1 = 0 ∧
        c_literal "dev_flash" <:+: name_text cap first pid_array (i + l)) →
      find_game_scan cap pid_array (j + m) i found_pid name_buffer w =
        find_game_scan cap pid_array m (i + j) found_pid name_buffer
          { w with
            calls := w.calls ++ (List.range j).map
                (fun l => CapCall.getProcessName (pid_array.getD (i + l) 0 % 2 ^ 32)) } := by
  intro j
  induction j with
  | zero => intro m i f nb w _ _; simp
  | succ j ih =>
    intro m i f nb w hcalls hskip
    have h0 := hskip 0 (by omega)
    simp only [name_reply, name_text, name_value, Nat.add_zero, ← hcalls] at h0
    rw [show j + 1 + m = (j + m) + 1 by omega]
    rw [find_game_scan]
    simp only [ccapi_get_process_name]
    rw [if_neg (by rw [h0.1]; decide),
      if_neg (by rw [(c_strstr_iff_contains _ _).mpr h0.2]; decide)]
    have hshift : ∀ l, i + 1 + l = i + (l + 1) := fun l => by omega
    rw [ih m (i + 1) f nb _ (by simp [hcalls]; omega)
      (by intro l hl; rw [hshift]; exact hskip (l + 1) (by omega))]
    rw [map_range_succ]
    simp only [hshift, Nat.add_zero, World.log, List.append_assoc, List.singleton_append]

theorem send_string_with_tag_emit (w : World) (text : List Nat) (hroom : w.room = none) :
    ∃ tail, (send_string_with_tag w text).2 = w.emit tail := by
  by_cases h : c_strlen text ≤ INT_MAX
  · rw [send_string_with_tag_ok w text hroom h]
    exact ⟨_, rfl⟩
  · refine ⟨[], ?_⟩
    unfold send_string_with_tag
    simp only
    rw [if_pos (by omega), emit_nil]

theorem process_packet_find_game (cap : Capability) (w : World) (recv_buffer : Nat → Nat)
    (cb : Int) (hroom : w.room = none) :
    process_packet cap w 23 recv_buffer cb =
      (0,
        match (ccapi_find_game_process cap w 0 w.stale_name_buffer).2.2.1 with
        | some text =>
          (send_string_with_tag
            (((ccapi_find_game_process cap w 0 w.stale_name_buffer).2.2.2.emit [2]).emit
              (le_bytes 4
                ((if (ccapi_find_game_process cap w 0 w.stale_name_buffer).1 = 0 then
                  (ccapi_find_game_process cap w 0 w.stale_name_buffer).2.1 else 0) % 2 ^ 32)))
            text).2
        | none =>
          ((ccapi_find_game_process cap w 0 w.stale_name_buffer).2.2.2.emit [1]).emit
            (le_bytes 4
              ((if (ccapi_find_game_process cap w 0 w.stale_name_buffer).1 = 0 then
                (ccapi_find_game_process cap w 0 w.stale_name_buffer).2.1 else 0) % 2 ^ 32))) := by
  have hr := ccapi_find_game_process_room cap w 0 w.stale_name_buffer
  rw [hroom] at hr
  unfold process_packet
  simp only [show ¬ ((23 : Int) = 1) by decide, show ¬ ((23 : Int) = 2) by decide,
    show ¬ ((23 : Int) = 3) by decide, show ¬ ((23 : Int) = 4) by decide,
    show ¬ ((23 : Int) = 5) by decide, show ¬ ((23 : Int) = 9) by decide,
    show ¬ ((23 : Int) = 10) by decide, show ¬ ((23 : Int) = 22) by decide, if_false, if_true]
  rcases hf : ccapi_find_game_process cap w 0 w.stale_name_buffer with ⟨ret, found, nb, w1⟩
  rw [hf] at hr
  simp only at hr ⊢
  cases nb with
  | none =>
    simp [send_uint8_ok, send_uint32_ok, hr]
  | some text =>
    simp [send_uint8_ok, send_uint32_ok, hr]

theorem ccapi_find_game_process_match (cap : Capability) (w : World) (found_pid : Nat)
    (name_buffer : Option (List Nat)) (j : Nat)
    (hlist : (cap.getProcessList w.calls.length).1 = 0)
    (hj : j < (cap.getProcessList w.calls.length).2.1 % 2 ^ 32)
    (hskip : ∀ l, l < j →
      (name_reply cap (w.calls.length + 1) (cap.getProcessList w.calls.length).2.2 l).1 = 0 ∧
      c_literal "dev_flash" <:+:
        name_text cap (w.calls.length + 1) (cap.getProcessList w.calls.length).2.2 l)
    (hmatch : (name_reply cap (w.calls.length + 1)
        (cap.getProcessList w.calls.length).2.2 j).1 = 0 ∧
      ¬ c_literal "dev_flash" <:+:
        name_text cap (w.calls.length + 1) (cap.getProcessList w.calls.length).2.2 j) :
    ccapi_find_game_process cap w found_pid name_buffer =
      (0, (cap.getProcessList w.calls.length).2.2.getD j 0 % 2 ^ 32,
        (if 0 < c_strlen (name_value cap (w.calls.length + 1)
              (cap.getProcessList w.calls.length).2.2 j) ∧ w.malloc_ok = true then
          some (name_text cap (w.calls.length + 1) (cap.getProcessList w.calls.length).2.2 j)
        else name_buffer),
        { w with
          calls := w.calls ++ CapCall.getProcessList :: (List.range (j + 1)).map
              (fun l => CapCall.getProcessName
                ((cap.getProcessList w.calls.length).2.2.getD l 0 % 2 ^ 32)) }) := by
  unfold ccapi_find_game_process
  simp only [ccapi_get_process_list]
  rw [if_neg (by rw [hlist]; decide)]
  obtain ⟨m, hm⟩ : ∃ m, (cap.getProcessList w.calls.length).2.1 % 2 ^ 32 = j + (m + 1) :=
    ⟨(cap.getProcessList w.calls.length).2.1 % 2 ^ 32 - j - 1, by omega⟩
  rw [hm, find_game_scan_skip cap (w.calls.length + 1) _ j (m + 1) 0 found_pid name_buffer
    (w.log CapCall.getProcessList) (by simp)
    (by intro l hl; rw [Nat.zero_add]; exact hskip l hl)]
  rw [find_game_scan]
  simp only [ccapi_get_process_name, Nat.zero_add]
  have hidx : (w.calls ++ ([CapCall.getProcessList] ++ (List.range j).map
      (fun l => CapCall.getProcessName
        ((cap.getProcessList w.calls.length).2.2.getD l 0 % 2 ^ 32)))).length
      = w.calls.length + 1 + j := by simp; omega
  simp only [name_reply, name_text, name_value] at hmatch
  simp only [World.log, List.append_assoc, hidx]
  rw [if_neg (by rw [hmatch.1]; decide), if_pos (by
    rcases hc : c_strstr _ (c_literal "dev_flash") with _ | _
    · rfl
    · exact absurd ((c_strstr_iff_contains _ _).mp hc) hmatch.2)]
  simp only [name_text, name_value, name_reply, List.range_succ, List.map_append, List.map_cons,
    List.map_nil, gt_iff_lt, List.singleton_append, List.cons_append, List.nil_append]
  rfl

theorem c_strlen_eq_length (s : List Nat) (h : ∀ c ∈ s, c % 256 ≠ 0) : c_strlen s = s.length := by
  unfold c_strlen
  rw [List.takeWhile_eq_self_iff.mpr (by intro c hc; simpa using h c hc)]

theorem string_to_array_loop_length (s : List Nat) (len : Nat) (hlen : len + 2 < 2 ^ 32) :
    ∀ (fuel i : Nat), i ≤ len + 1 → len + 1 ≤ i + 2 * fuel →
      (string_to_array_loop s len fuel i).length = (len + 2 - i) / 2 := by
  intro fuel
  induction fuel with
  | zero =>
    intro i h1 h2
    simp only [string_to_array_loop, List.length_nil]
    omega
  | succ fuel ih =>
    intro i h1 h2
    unfold string_to_array_loop
    rw [Nat.mod_eq_of_lt (by omega : len + 1 < 2 ^ 32)]
    by_cases hi : i < len + 1
    · rw [if_pos hi, List.length_cons, Nat.mod_eq_of_lt (by omega : i + 2 < 2 ^ 32)]
      by_cases hi2 : i + 2 ≤ len + 1
      · rw [ih (i + 2) hi2 (by omega)]
        omega
      · -- the next index is past the bound: the loop stops there
        have hstop : string_to_array_loop s len fuel (i + 2) = [] := by
          cases fuel with
          | zero => rfl
          | succ f =>
            unfold string_to_array_loop
            rw [Nat.mod_eq_of_lt (by omega : len + 1 < 2 ^ 32), if_neg (by omega)]
        rw [hstop, List.length_nil]
        omega
    · rw [if_neg hi, List.length_nil]
      omega

/-- Number of bytes `ccapi_string_to_array` stores for a string of `n > 0` characters none of which is NUL: `n / 2 + 1`, one more than `n / 2` rounded up when `n` is even. -/
theorem ccapi_string_to_array_length (s : List Nat) (hne : s ≠ [])
    (hchars : ∀ c ∈ s, c % 256 ≠ 0) (hlen : s.length + 2 < 2 ^ 32) :
    (ccapi_string_to_array s).length = s.length / 2 + 1 := by
  have hstr := c_strlen_eq_length s hchars
  have hpos : 0 < s.length := List.length_pos.mpr hne
  unfold ccapi_string_to_array
  rw [hstr, Nat.mod_eq_of_lt (by omega : s.length < 2 ^ 32), if_neg (by omega),
    string_to_array_loop_length _ _ hlen _ 0 (by omega) (by omega)]
  omega

theorem ccapi_init_output (cap : Capability) (w : World) :
    (ccapi_init cap w).2.output = w.output := by
  unfold ccapi_init
  split
  · rfl
  · rcases cap.loadLibrary w.calls.length with ⟨handle, symbols⟩
    simp only
    split <;> rfl

theorem process_packet_setup_output (cap : Capability) (w : World) (recv_buffer : Nat → Nat)
    (cb : Int) (hroom : w.room = none) :
    (process_packet cap w 1 recv_buffer cb).2.output =
      w.output ++ [1, if (ccapi_init cap w).1 = 0 then 1 else 0] := by
  simp [process_packet, handle_setup, send_uint8_ok, ccapi_init_room, hroom, World.emit,
    ccapi_init_output, le_bytes]
  split <;> decide

theorem process_packet_self_test_calls (cap : Capability) (w : World) (recv_buffer : Nat → Nat)
    (cb : Int) (hroom : w.room = none) (hmalloc : w.malloc_ok = true) :
    (process_packet cap w 3 recv_buffer cb).2.calls = w.calls := by
  have hlit : c_strlen (c_literal "This is param 1!!!") ≤ INT_MAX := by decide
  by_cases hcb : cb > 0
  · have hnn : ¬ ((recv_uint16_from_buffer recv_buffer 0 : Int) + 4 < 0) := by omega
    simp [process_packet, hcb, send_uint8_ok, send_int32_ok, send_string_with_tag_ok, hroom,
      hmalloc, hlit, recv_u16tagged_into_new_buffer, send_buffer_with_tag_ok, hnn]
  · simp [process_packet, hcb, send_uint8_ok, send_int32_ok, send_string_with_tag_ok, hroom,
      hlit]

theorem process_packet_connect (cap : Capability) (w : World) (recv_buffer : Nat → Nat)
    (cb : Int) (hroom : w.room = none) (hmalloc : w.malloc_ok = true) (hcb : 2 ≤ cb) :
    process_packet cap w 4 recv_buffer cb =
      (0, { w with
            output := w.output ++ 1 :: le_bytes 4 (to_uint32 (cap.connect w.calls.length
              ((mem_slice recv_buffer 2 (recv_uint16_from_buffer recv_buffer 0) ++ [0]).take
                (c_strlen (mem_slice recv_buffer 2 (recv_uint16_from_buffer recv_buffer 0)
                  ++ [0])))))
            calls := w.calls ++ [CapCall.connect
              ((mem_slice recv_buffer 2 (recv_uint16_from_buffer recv_buffer 0) ++ [0]).take
                (c_strlen (mem_slice recv_buffer 2 (recv_uint16_from_buffer recv_buffer 0)
                  ++ [0])))] }) := by
  have h : ¬ cb < 2 := by omega
  simp [process_packet, h, send_uint8_ok, send_int32_ok, hroom, hmalloc,
    recv_u16tagged_into_new_buffer, ccapi_connect, World.emit, World.log, le_bytes]

theorem process_packet_disconnect (cap : Capability) (w : World) (recv_buffer : Nat → Nat)
    (cb : Int) (hroom : w.room = none) :
    process_packet cap w 5 recv_buffer cb =
      (0, { w with
            output := w.output ++ 1 :: le_bytes 4 (to_uint32 (cap.disconnect w.calls.length))
            calls := w.calls ++ [CapCall.disconnect] }) := by
  simp [process_packet, send_uint8_ok, send_int32_ok, hroom, ccapi_disconnect, World.emit,
    World.log, le_bytes]

theorem process_packet_attach_calls (cap : Capability) (w : World) (recv_buffer : Nat → Nat)
    (cb : Int) (hroom : w.room = none) (hcb : 4 ≤ cb) :
    (process_packet cap w 22 recv_buffer cb).2.calls = w.calls := by
  have h : ¬ cb < 4 := by omega
  simp [process_packet, h, send_uint8_ok, send_uint32_ok, hroom, ccapi_attach_process]

/-! ## Frame header validation (C1) -/

/-- C1: on a header read by `run_network_loop`, the loop ends with status -1 having read nothing after the 8 header bytes, handed no packet to `process_packet` and left the world (so the output) untouched, if and only if `command_id < 0` or `payload_length` is outside `[0, 65536]`. -/
theorem run_network_loop_malformed_header_iff (cap : Capability) (c : Conn)
    (header rest : List Nat) (hlen : header.length = 8) (hin : c.input = header ++ rest) :
    (∃ c', run_network_loop cap c = some (-1, c') ∧ c'.input = rest ∧
        c'.packets = c.packets ∧ c'.world = c.world) ↔
      (recv_int32_from_buffer (mem_store c.buffer header) 0 < 0 ∨
        recv_int32_from_buffer (mem_store c.buffer header) 4 < 0 ∨
        0x10000 < recv_int32_from_buffer (mem_store c.buffer header) 4) := by
  unfold run_network_loop
  unfold run_network_loop_fuel
  rw [hin, recv_exact_header header rest c.buffer hlen]
  simp only
  constructor
  · rintro ⟨c', h, hi, hp, hw⟩
    by_contra hv
    simp only [not_or, not_lt] at hv
    obtain ⟨hv1, hv2, hv3⟩ := hv
    rw [if_neg (by decide), if_neg (by omega), if_neg (by omega)] at h
    split_ifs at h
    · simp at h
    · simp only [Option.some.injEq, Prod.mk.injEq] at h
      obtain ⟨_, rfl⟩ := h
      simp at hp
    · have := run_network_loop_fuel_packets_mono cap _ _ _ _ h
      have hl := congrArg List.length hp
      simp only [List.length_append, List.length_singleton] at this
      omega
    · simp at h
    · simp only [Option.some.injEq, Prod.mk.injEq] at h
      obtain ⟨_, rfl⟩ := h
      simp at hp
    · have := run_network_loop_fuel_packets_mono cap _ _ _ _ h
      have hl := congrArg List.length hp
      simp only [List.length_append, List.length_singleton] at this
      omega
  · intro hv
    rw [if_neg (by decide)]
    by_cases h1 : recv_int32_from_buffer (mem_store c.buffer header) 0 < 0
    · rw [if_pos h1]
      exact ⟨_, rfl, rfl, rfl, rfl⟩
    · rw [if_neg h1, if_pos (by omega)]
      exact ⟨_, rfl, rfl, rfl, rfl⟩

/-- C1 at two headers: `payload_length = 0x10001` ends the loop with -1 and nothing written; `payload_length = 0x10000` does not. -/
theorem run_network_loop_malformed_header_iff_witness :
    (∃ c', run_network_loop (memory_capability (fun _ => 0))
          (Conn.start [10, 0, 0, 0, 1, 0, 1, 0]) = some (-1, c') ∧ c'.input = [] ∧
        c'.packets = [] ∧ c'.world = World.fresh) ∧
      ¬ (∃ c', run_network_loop (memory_capability (fun _ => 0))
          (Conn.start [10, 0, 0, 0, 0, 0, 1, 0]) = some (-1, c') ∧ c'.input = [] ∧
        c'.packets = [] ∧ c'.world = World.fresh) :=
  ⟨(run_network_loop_malformed_header_iff (memory_capability (fun _ => 0))
      (Conn.start [10, 0, 0, 0, 1, 0, 1, 0]) [10, 0, 0, 0, 1, 0, 1, 0] [] rfl rfl).mpr (by decide),
    fun h => absurd ((run_network_loop_malformed_header_iff (memory_capability (fun _ => 0))
      (Conn.start [10, 0, 0, 0, 0, 0, 1, 0]) [10, 0, 0, 0, 0, 0, 1, 0] [] rfl rfl).mp h)
      (by decide)⟩

/-! ## Chunked memory read: addresses (C2) -/

/-- C2, the code at address 0, length `0x8000`, on a console whose memory cell `a` holds `a mod 256`: the second request is issued at address 0 again, so the second chunk carries the byte of address 0 (0) where the byte of address `0x7FFF` (255) belongs. -/
theorem read_memory_second_chunk_rereads_address :
    (process_packet (memory_capability (fun a => a % 256)) World.fresh 10
        (buffer_of [0, 0, 0, 0, 0, 128, 0, 0]) 8).2.output =
      1 :: (le_bytes 2 0x7FFF ++ mem_slice (fun a => a % 256) 0 0x7FFF ++
        (le_bytes 2 1 ++ mem_slice (fun a => a % 256) 0 1)) ∧
    (process_packet (memory_capability (fun a => a % 256)) World.fresh 10
        (buffer_of [0, 0, 0, 0, 0, 128, 0, 0]) 8).2.calls =
      [CapCall.getMemory (2 ^ 32 - 1) 0 0x7FFF, CapCall.getMemory (2 ^ 32 - 1) 0 1] ∧
    mem_slice (fun a => a % 256) 0 1 = [0] ∧
    mem_slice (fun a => a % 256) (0 + 1 * 0x7FFF) 1 = [255] := by
  have hS : recv_uint32_from_buffer (buffer_of [0, 0, 0, 0, 0, 128, 0, 0]) 4 = 0x8000 := by decide
  have hA : recv_uint32_from_buffer (buffer_of [0, 0, 0, 0, 0, 128, 0, 0]) 0 = 0 := by decide
  have h := process_packet_get_memory_ok (memory_capability (fun a => a % 256)) World.fresh
    (buffer_of [0, 0, 0, 0, 0, 128, 0, 0]) rfl rfl (fun _ _ => le_refl _)
  rw [h, hS, hA]
  have hc : chunk_count 0x8000 = 2 := by decide
  have h0 : chunk_len 0x8000 0 = 0x7FFF := by decide
  have h1 : chunk_len 0x8000 1 = 1 := by decide
  refine ⟨?_, by decide, by decide, by decide⟩
  simp only [hc, List.range_succ, List.range_zero, List.nil_append, List.flatMap_cons,
    List.flatMap_nil, List.append_nil, List.singleton_append, chunk_wire, read_reply, h0, h1,
    memory_capability, mem_slice_getD]
  simp [World.fresh]

/-! ## Chunked memory read: chunk count and lengths (C3) -/

/-- C3: with every library read succeeding, read-memory (command 10) writes `value_count` 1 and then exactly `chunk_count S` chunks, `S / 0x7FFF` rounded up, each a `uint16` length followed by that many bytes; request `k` and chunk `k` have length `min (S - k * 0x7FFF) 0x7FFF`, which is `0x7FFF` for all but the last and `S mod 0x7FFF` (or `0x7FFF` for a nonzero exact multiple) for the last; `S = 0` gives no chunk and `S = 0x7FFF` exactly one. -/
theorem read_memory_chunks (cap : Capability) (w : World) (recv_buffer : Nat → Nat)
    (hroom : w.room = none) (hmalloc : w.malloc_ok = true)
    (hok : ∀ k, k < chunk_count (recv_uint32_from_buffer recv_buffer 4) →
      0 ≤ (read_reply cap w (recv_uint32_from_buffer recv_buffer 0)
        (recv_uint32_from_buffer recv_buffer 4) k).1) :
    process_packet cap w 10 recv_buffer 8 =
        (0, { w with
              output := w.output ++ 1 ::
                (List.range (chunk_count (recv_uint32_from_buffer recv_buffer 4))).flatMap
                  (chunk_wire cap w (recv_uint32_from_buffer recv_buffer 0)
                    (recv_uint32_from_buffer recv_buffer 4)),
              calls := w.calls ++
                (List.range (chunk_count (recv_uint32_from_buffer recv_buffer 4))).map
                  (fun k => CapCall.getMemory w.ProcessId (recv_uint32_from_buffer recv_buffer 0)
                    (chunk_len (recv_uint32_from_buffer recv_buffer 4) k)) }) ∧
      (∀ k, (chunk_wire cap w (recv_uint32_from_buffer recv_buffer 0)
          (recv_uint32_from_buffer recv_buffer 4) k).length
            = 2 + chunk_len (recv_uint32_from_buffer recv_buffer 4) k) ∧
      (∀ S k, chunk_len S k = min (S - k * 0x7FFF) 0x7FFF ∧ chunk_len S k ≤ 0x7FFF) ∧
      (∀ S k, k + 1 < chunk_count S → chunk_len S k = 0x7FFF) ∧
      (∀ S, 0 < S → chunk_len S (chunk_count S - 1)
          = if S % 0x7FFF = 0 then 0x7FFF else S % 0x7FFF) ∧
      (∀ S, chunk_count S * 0x7FFF < S + 0x7FFF ∧ S ≤ chunk_count S * 0x7FFF) ∧
      chunk_count 0 = 0 ∧ chunk_count 0x7FFF = 1 := by
  refine ⟨process_packet_get_memory_ok cap w recv_buffer hroom hmalloc hok,
    fun k => chunk_wire_length _ _ _ _ k, ?_, ?_, ?_, ?_, by decide, by decide⟩
  · intro S k; exact ⟨rfl, Nat.min_le_right _ _⟩
  · intro S k hk; simp only [chunk_len, chunk_count, chunk_size] at hk ⊢; omega
  · intro S hS; simp only [chunk_len, chunk_count, chunk_size]; split_ifs <;> omega
  · intro S; simp only [chunk_count, chunk_size]; omega

/-- C3 at address 5, length 3 on a console whose memory cell `a` holds `a mod 256`. -/
theorem read_memory_chunks_witness :
    World.fresh.room = none ∧ World.fresh.malloc_ok = true ∧
      process_packet (memory_capability (fun a => a % 256)) World.fresh 10
          (buffer_of [5, 0, 0, 0, 3, 0, 0, 0]) 8 =
        (0, { World.fresh with
              output := [1, 3, 0, 5, 6, 7],
              calls := [CapCall.getMemory (2 ^ 32 - 1) 5 3] }) :=
  ⟨rfl, rfl,
    (read_memory_chunks (memory_capability (fun a => a % 256)) World.fresh
      (buffer_of [5, 0, 0, 0, 3, 0, 0, 0]) rfl rfl (fun _ _ => le_refl _)).1.trans (by decide)⟩

/-! ## Chunked memory read: fault sentinel (C4) -/

/-- C4: when request `k` is the first library read to fail, the response is `value_count` 1, the `k` chunks before it in full, then the `uint16` sentinel `0x8000` (bytes `00 80`) and nothing more; exactly `k + 1` reads were issued and `process_packet` returns 0, so the loop goes on to the next frame. -/
theorem read_memory_fault_sentinel (cap : Capability) (w : World) (recv_buffer : Nat → Nat)
    (k : Nat) (hroom : w.room = none) (hmalloc : w.malloc_ok = true)
    (hk : k < chunk_count (recv_uint32_from_buffer recv_buffer 4))
    (hok : ∀ i, i < k →
      0 ≤ (read_reply cap w (recv_uint32_from_buffer recv_buffer 0)
        (recv_uint32_from_buffer recv_buffer 4) i).1)
    (hfail : (read_reply cap w (recv_uint32_from_buffer recv_buffer 0)
        (recv_uint32_from_buffer recv_buffer 4) k).1 < 0) :
    process_packet cap w 10 recv_buffer 8 =
        (0, { w with
              output := w.output ++ 1 ::
                ((List.range k).flatMap
                  (chunk_wire cap w (recv_uint32_from_buffer recv_buffer 0)
                    (recv_uint32_from_buffer recv_buffer 4)) ++ [0x00, 0x80]),
              calls := w.calls ++
                (List.range (k + 1)).map
                  (fun i => CapCall.getMemory w.ProcessId (recv_uint32_from_buffer recv_buffer 0)
                    (chunk_len (recv_uint32_from_buffer recv_buffer 4) i)) }) := by
  rw [process_packet_get_memory, handle_get_memory_ok cap w recv_buffer hroom hmalloc,
    get_memory_loop_fault cap _ _ _ (w.emit [1]) k (by simpa using hroom) (le_refl _) hk
      (by intro i hi; rw [read_reply_emit]; exact hok i hi)
      (by rw [read_reply_emit]; exact hfail)]
  simp only [chunk_wire_emit, emit_ProcessId, emit_calls, emit_output]
  simp [World.emit]

/-- C4 for a read of `0x8000` bytes whose second request fails. -/
theorem read_memory_fault_sentinel_witness :
    (process_packet (faulting_capability (fun a => a % 256) 1) World.fresh 10
          (buffer_of [0, 0, 0, 0, 0, 128, 0, 0]) 8).1 = 0 ∧
      (process_packet (faulting_capability (fun a => a % 256) 1) World.fresh 10
          (buffer_of [0, 0, 0, 0, 0, 128, 0, 0]) 8).2.calls =
        [CapCall.getMemory (2 ^ 32 - 1) 0 0x7FFF, CapCall.getMemory (2 ^ 32 - 1) 0 1] := by
  have h := read_memory_fault_sentinel (faulting_capability (fun a => a % 256) 1) World.fresh
    (buffer_of [0, 0, 0, 0, 0, 128, 0, 0]) 1 rfl rfl (by decide)
    (fun i hi => by
      have : i = 0 := by omega
      subst this
      decide)
    (by decide)
  rw [h]
  exact ⟨rfl, by decide⟩

/-! ## Library failures and the connection (C5) -/

/-- C5 as stated fails on command 24: with a transport that never fails, a failing process-list call makes `process_packet` return -1, nothing is written, and the loop ends with -1 leaving the next frame unread. -/
theorem process_list_failure_ends_connection :
    World.fresh.room = none ∧
      ((faulting_capability (fun _ => 0) 0).getProcessList 0).1 = -1 ∧
      process_packet (faulting_capability (fun _ => 0) 0) World.fresh 24 (buffer_of []) 0 =
        (-1, World.fresh.log CapCall.getProcessList) ∧
      (run_network_loop (faulting_capability (fun _ => 0) 0)
          (Conn.start [24, 0, 0, 0, 0, 0, 0, 0, 5, 0, 0, 0, 0, 0, 0, 0])).map
        (fun r => (r.1, r.2.input, r.2.world.output)) =
        some (-1, [5, 0, 0, 0, 0, 0, 0, 0], []) := by
  decide

/-- C5 amended: with a transport and `malloc` that succeed and a well-formed payload, commands 1, 4, 5, 9 and 10 return 0 whatever the library answers and carry a failure as data in the response: the second byte 0 for command 1, the `int32` status the library returned after `value_count` 1 for commands 4, 5 and 9, the `uint16` sentinel `0x8000` after the chunks read so far for command 10. Commands 3 and 22 return 0 and make no library call. Command 24 is the exception: a failing process-list call, or a first failing name lookup, makes it return -1. For any frame, a return of 0 makes the loop go on with the bytes after the frame and a return of -1 ends the loop with -1. Command 23 is left out: what it answers after a failed or unmatched scan depends on the uninitialised `name_buffer`. -/
theorem capability_failure_by_command (cap : Capability) (w : World) (recv_buffer : Nat → Nat)
    (cb : Int) (hroom : w.room = none) (hmalloc : w.malloc_ok = true) (hcb1 : cb ≤ 0x10000) :
    ((process_packet cap w 1 recv_buffer cb).1 = 0 ∧
        (process_packet cap w 1 recv_buffer cb).2.output =
          w.output ++ [1, if (ccapi_init cap w).1 = 0 then 1 else 0]) ∧
      ((process_packet cap w 3 recv_buffer cb).1 = 0 ∧
        (process_packet cap w 3 recv_buffer cb).2.calls = w.calls) ∧
      (2 ≤ cb →
        process_packet cap w 4 recv_buffer cb =
          (0, { w with
                output := w.output ++ 1 :: le_bytes 4 (to_uint32 (cap.connect w.calls.length
                  ((mem_slice recv_buffer 2 (recv_uint16_from_buffer recv_buffer 0) ++ [0]).take
                    (c_strlen (mem_slice recv_buffer 2 (recv_uint16_from_buffer recv_buffer 0)
                      ++ [0]))))),
                calls := w.calls ++ [CapCall.connect
                  ((mem_slice recv_buffer 2 (recv_uint16_from_buffer recv_buffer 0) ++ [0]).take
                    (c_strlen (mem_slice recv_buffer 2 (recv_uint16_from_buffer recv_buffer 0)
                      ++ [0])))] })) ∧
      process_packet cap w 5 recv_buffer cb =
        (0, { w with
              output := w.output ++ 1 :: le_bytes 4 (to_uint32 (cap.disconnect w.calls.length)),
              calls := w.calls ++ [CapCall.disconnect] }) ∧
      (4 ≤ cb →
        process_packet cap w 9 recv_buffer cb =
          (0, { w with
                output := w.output ++ 1 ::
                  le_bytes 4 (to_uint32 (cap.setMemory w.calls.length w.ProcessId
                    (recv_uint32_from_buffer recv_buffer 0) (cb - 4).toNat
                    (mem_slice recv_buffer 4 (cb - 4).toNat))),
                calls := w.calls ++ [CapCall.setMemory w.ProcessId
                    (recv_uint32_from_buffer recv_buffer 0) (cb - 4).toNat
                    (mem_slice recv_buffer 4 (cb - 4).toNat)] })) ∧
      (cb = 8 →
        (process_packet cap w 10 recv_buffer cb).1 = 0 ∧
        ∀ k, k < chunk_count (recv_uint32_from_buffer recv_buffer 4) →
          (∀ i, i < k →
            0 ≤ (read_reply cap w (recv_uint32_from_buffer recv_buffer 0)
              (recv_uint32_from_buffer recv_buffer 4) i).1) →
          (read_reply cap w (recv_uint32_from_buffer recv_buffer 0)
              (recv_uint32_from_buffer recv_buffer 4) k).1 < 0 →
          (process_packet cap w 10 recv_buffer cb).2.output =
            w.output ++ 1 ::
              ((List.range k).flatMap
                (chunk_wire cap w (recv_uint32_from_buffer recv_buffer 0)
                  (recv_uint32_from_buffer recv_buffer 4)) ++ [0x00, 0x80])) ∧
      (4 ≤ cb →
        (process_packet cap w 22 recv_buffer cb).1 = 0 ∧
        (process_packet cap w 22 recv_buffer cb).2.calls = w.calls) ∧
      ((cap.getProcessList w.calls.length).1 ≠ 0 →
        process_packet cap w 24 recv_buffer cb = (-1, w.log CapCall.getProcessList)) ∧
      (∀ j, (cap.getProcessList w.calls.length).1 = 0 →
        j < (cap.getProcessList w.calls.length).2.1 % 2 ^ 32 →
        (∀ l, l < j →
          (name_reply cap (w.calls.length + 1) (cap.getProcessList w.calls.length).2.2 l).1 = 0 ∧
          c_strlen (name_value cap (w.calls.length + 1)
            (cap.getProcessList w.calls.length).2.2 l) ≤ INT_MAX) →
        (name_reply cap (w.calls.length + 1) (cap.getProcessList w.calls.length).2.2 j).1 ≠ 0 →
        (process_packet cap w 24 recv_buffer cb).1 = -1) ∧
      (∀ (c : Conn) (cmd n : Nat) (payload rest : List Nat), cmd < 2 ^ 31 → n ≤ 0x10000 →
        payload.length = n → c.input = le_bytes 4 cmd ++ le_bytes 4 n ++ payload ++ rest →
        ((process_packet cap c.world (cmd : Int)
            (mem_store (mem_store c.buffer (le_bytes 4 cmd ++ le_bytes 4 n)) payload)
            (n : Int)).1 = 0 →
          run_network_loop cap c = run_network_loop cap
            { input := rest,
              buffer := mem_store (mem_store c.buffer (le_bytes 4 cmd ++ le_bytes 4 n)) payload,
              packets := c.packets ++ [((cmd : Int), (n : Int))],
              world := (process_packet cap c.world (cmd : Int)
                (mem_store (mem_store c.buffer (le_bytes 4 cmd ++ le_bytes 4 n)) payload)
                (n : Int)).2 }) ∧
        ((process_packet cap c.world (cmd : Int)
            (mem_store (mem_store c.buffer (le_bytes 4 cmd ++ le_bytes 4 n)) payload)
            (n : Int)).1 = -1 →
          run_network_loop cap c = some (-1,
            { input := rest,
              buffer := mem_store (mem_store c.buffer (le_bytes 4 cmd ++ le_bytes 4 n)) payload,
              packets := c.packets ++ [((cmd : Int), (n : Int))],
              world := (process_packet cap c.world (cmd : Int)
                (mem_store (mem_store c.buffer (le_bytes 4 cmd ++ le_bytes 4 n)) payload)
                (n : Int)).2 }))) := by
  refine ⟨⟨process_packet_setup_ret cap w recv_buffer cb hroom,
      process_packet_setup_output cap w recv_buffer cb hroom⟩,
    ⟨process_packet_self_test_ret cap w recv_buffer cb hroom hmalloc,
      process_packet_self_test_calls cap w recv_buffer cb hroom hmalloc⟩,
    fun h => process_packet_connect cap w recv_buffer cb hroom hmalloc h,
    process_packet_disconnect cap w recv_buffer cb hroom, ?_, ?_,
    fun h => ⟨process_packet_attach_ret cap w recv_buffer cb hroom h,
      process_packet_attach_calls cap w recv_buffer cb hroom h⟩, ?_, ?_, ?_⟩
  · intro h4
    have hlt : ¬ to_size_t cb < 4 := by rw [to_size_t_of_nonneg cb (by omega) hcb1]; omega
    have hsub : to_uint32 (cb - 4) = (cb - 4).toNat := by
      unfold to_uint32
      omega
    rw [process_packet_set_memory]
    simp [handle_set_memory, hlt, send_uint8_ok, send_int32_ok, hroom, ccapi_write_memory, hsub,
      World.emit, World.log]
  · intro h8
    subst h8
    refine ⟨process_packet_get_memory_ret cap w recv_buffer hroom hmalloc, ?_⟩
    intro k hk hok hfail
    rw [process_packet_get_memory, handle_get_memory_ok cap w recv_buffer hroom hmalloc,
      get_memory_loop_fault cap _ _ _ (w.emit [1]) k (by simpa using hroom) (le_refl _) hk
        (by intro i hi; rw [read_reply_emit]; exact hok i hi)
        (by rw [read_reply_emit]; exact hfail)]
    simp only [chunk_wire_emit, emit_ProcessId, emit_calls, emit_output]
    simp [World.emit]
  · intro hfail
    rw [process_packet_process_list, if_pos (by simpa [CCAPI_OK] using hfail)]
  · intro j hlist hj hok hfail
    rw [process_packet_process_list, if_neg (by rw [hlist]; decide),
      send_uint8_ok _ _ (by simpa using hroom)]
    simp only
    rw [if_neg (by decide),
      process_list_loop_fault cap (w.calls.length + 1) _ _ 0 _ j (by simpa using hroom)
        (by simp) hj (by intro l hl; rw [Nat.zero_add]; exact hok l hl)
        (by rw [Nat.zero_add]; exact hfail)]
  · intro c cmd n payload rest hcmd hn hlen hin
    have hframe := run_network_loop_frame cap c cmd n payload rest hcmd hn hlen hin
    constructor
    · intro h0
      rw [hframe, if_neg (by rw [h0]; decide)]
    · intro h1
      rw [hframe, if_pos (by rw [h1]; decide), h1]

/-- C5 amended, on a library whose every call fails, for an 8-byte payload: commands 1, 4, 5, 9 and 10 return 0 and answer `01 00`, `01 FF FF FF FF` (status -1) and `01 00 80`; command 24 returns -1; two disconnect frames in a row are both answered. -/
theorem capability_failure_by_command_witness :
    World.fresh.room = none ∧ World.fresh.malloc_ok = true ∧
      (ccapi_init (faulting_capability (fun _ => 0) 0) World.fresh).1 = -1 ∧
      (process_packet (faulting_capability (fun _ => 0) 0) World.fresh 1
          (buffer_of [0, 0, 0, 0, 1, 0, 0, 0]) 8).1 = 0 ∧
      (process_packet (faulting_capability (fun _ => 0) 0) World.fresh 1
          (buffer_of [0, 0, 0, 0, 1, 0, 0, 0]) 8).2.output = [1, 0] ∧
      (faulting_capability (fun _ => 0) 0).connect 0 [] = -1 ∧
      process_packet (faulting_capability (fun _ => 0) 0) World.fresh 4
          (buffer_of [0, 0, 0, 0, 1, 0, 0, 0]) 8 =
        (0, { World.fresh with
              output := [1, 255, 255, 255, 255], calls := [CapCall.connect []] }) ∧
      (faulting_capability (fun _ => 0) 0).disconnect 0 = -1 ∧
      process_packet (faulting_capability (fun _ => 0) 0) World.fresh 5
          (buffer_of [0, 0, 0, 0, 1, 0, 0, 0]) 8 =
        (0, { World.fresh with
              output := [1, 255, 255, 255, 255], calls := [CapCall.disconnect] }) ∧
      (faulting_capability (fun _ => 0) 0).setMemory 0 (2 ^ 32 - 1) 0 4 [1, 0, 0, 0] = -1 ∧
      process_packet (faulting_capability (fun _ => 0) 0) World.fresh 9
          (buffer_of [0, 0, 0, 0, 1, 0, 0, 0]) 8 =
        (0, { World.fresh with
              output := [1, 255, 255, 255, 255],
              calls := [CapCall.setMemory (2 ^ 32 - 1) 0 4 [1, 0, 0, 0]] }) ∧
      ((faulting_capability (fun _ => 0) 0).getMemory 0 (2 ^ 32 - 1) 0 1).1 = -1 ∧
      (process_packet (faulting_capability (fun _ => 0) 0) World.fresh 10
          (buffer_of [0, 0, 0, 0, 1, 0, 0, 0]) 8).1 = 0 ∧
      (process_packet (faulting_capability (fun _ => 0) 0) World.fresh 10
          (buffer_of [0, 0, 0, 0, 1, 0, 0, 0]) 8).2.output = [1, 0x00, 0x80] ∧
      ((faulting_capability (fun _ => 0) 0).getProcessList 0).1 = -1 ∧
      process_packet (faulting_capability (fun _ => 0) 0) World.fresh 24
          (buffer_of [0, 0, 0, 0, 1, 0, 0, 0]) 8 =
        (-1, World.fresh.log CapCall.getProcessList) ∧
      (run_network_loop (faulting_capability (fun _ => 0) 0)
          (Conn.start [5, 0, 0, 0, 0, 0, 0, 0, 5, 0, 0, 0, 0, 0, 0, 0])).map
        (fun r => (r.1, r.2.input, r.2.world.output)) =
        some (0, [], [1, 255, 255, 255, 255, 1, 255, 255, 255, 255]) := by
  have h := capability_failure_by_command (faulting_capability (fun _ => 0) 0) World.fresh
    (buffer_of [0, 0, 0, 0, 1, 0, 0, 0]) 8 rfl rfl (by decide)
  refine ⟨rfl, rfl, by decide, h.1.1, h.1.2.trans (by decide), by decide,
    (h.2.2.1 (by decide)).trans (by decide), by decide, h.2.2.2.1.trans (by decide), by decide,
    (h.2.2.2.2.1 (by decide)).trans (by decide), by decide, (h.2.2.2.2.2.1 rfl).1,
    ((h.2.2.2.2.2.1 rfl).2 0 (by decide) (fun i hi => absurd hi (Nat.not_lt_zero i))
      (by decide)).trans (by decide),
    by decide, h.2.2.2.2.2.2.2.1 (by decide), ?_⟩
  rw [(h.2.2.2.2.2.2.2.2.2 (Conn.start [5, 0, 0, 0, 0, 0, 0, 0, 5, 0, 0, 0, 0, 0, 0, 0]) 5 0 []
    [5, 0, 0, 0, 0, 0, 0, 0] (by decide) (by decide) rfl rfl).1 (by decide)]
  decide

/-! ## Write memory (C6) -/

/-- C6: for a write-memory (command 9) payload of `n` bytes, if `n ≥ 4` the library write is called exactly once, for the attached process, with the 32-bit address of bytes 0..3 (so below `2 ^ 32`), size `n - 4` and the bytes 4..n-1 of the payload, the response is `value_count` 1 followed by the `int32` status the library returned, `process_packet` returns 0 and the loop goes on with the bytes after the frame; if `n < 4` no library call is made, nothing is written, `process_packet` returns 1 and the loop ends with status 1. -/
theorem write_memory_response (cap : Capability) (w : World) (recv_buffer : Nat → Nat) (n : Nat)
    (hmax : n ≤ 0x10000) :
    (4 ≤ n → w.room = none →
        process_packet cap w 9 recv_buffer (n : Int) =
          (0, { w with
                output := w.output ++ 1 ::
                  le_bytes 4 (to_uint32 (cap.setMemory w.calls.length w.ProcessId
                    (recv_uint32_from_buffer recv_buffer 0) (n - 4)
                    (mem_slice recv_buffer 4 (n - 4)))),
                calls := w.calls ++ [CapCall.setMemory w.ProcessId
                    (recv_uint32_from_buffer recv_buffer 0) (n - 4)
                    (mem_slice recv_buffer 4 (n - 4))] })) ∧
      recv_uint32_from_buffer recv_buffer 0 < 2 ^ 32 ∧
      (n < 4 → process_packet cap w 9 recv_buffer (n : Int) = (1, w)) ∧
      (∀ (c : Conn) (payload rest : List Nat), payload.length = n →
        c.input = le_bytes 4 9 ++ le_bytes 4 n ++ payload ++ rest →
        (n < 4 → ∃ c', run_network_loop cap c = some (1, c') ∧ c'.world = c.world) ∧
        (4 ≤ n → c.world.room = none →
          run_network_loop cap c = run_network_loop cap
            { input := rest,
              buffer := mem_store (mem_store c.buffer (le_bytes 4 9 ++ le_bytes 4 n)) payload,
              packets := c.packets ++ [(9, (n : Int))],
              world := (process_packet cap c.world 9
                (mem_store (mem_store c.buffer (le_bytes 4 9 ++ le_bytes 4 n)) payload)
                (n : Int)).2 })) := by
  have hsz : to_size_t (n : Int) = n := by
    rw [to_size_t_of_nonneg _ (by omega) (by omega)]; simp
  have hok : ∀ (w : World) (recv_buffer : Nat → Nat), 4 ≤ n → w.room = none →
      process_packet cap w 9 recv_buffer (n : Int) =
        (0, { w with
              output := w.output ++ 1 ::
                le_bytes 4 (to_uint32 (cap.setMemory w.calls.length w.ProcessId
                  (recv_uint32_from_buffer recv_buffer 0) (n - 4)
                  (mem_slice recv_buffer 4 (n - 4)))),
              calls := w.calls ++ [CapCall.setMemory w.ProcessId
                  (recv_uint32_from_buffer recv_buffer 0) (n - 4)
                  (mem_slice recv_buffer 4 (n - 4))] }) := by
    intro w recv_buffer h4 hroom
    have hsub : to_uint32 ((n : Int) - 4) = n - 4 := by
      unfold to_uint32
      omega
    have hlt : ¬ to_size_t (n : Int) < 4 := by rw [hsz]; omega
    rw [process_packet_set_memory]
    simp [handle_set_memory, hlt, send_uint8_ok, send_int32_ok, hroom, ccapi_write_memory, hsub,
      World.emit, World.log]
  have hshort : ∀ (w : World) (recv_buffer : Nat → Nat), n < 4 →
      process_packet cap w 9 recv_buffer (n : Int) = (1, w) := by
    intro w recv_buffer h4
    have hlt : to_size_t (n : Int) < 4 := by rw [hsz]; exact h4
    rw [process_packet_set_memory]
    unfold handle_set_memory
    rw [if_pos hlt]
    simp
  refine ⟨hok w recv_buffer, ?_, hshort w recv_buffer, ?_⟩
  · unfold recv_uint32_from_buffer
    omega
  · intro c payload rest hlen hin
    have hframe := run_network_loop_frame cap c 9 n payload rest (by decide) hmax hlen hin
    simp only [Nat.cast_ofNat] at hframe
    constructor
    · intro h4
      rw [hframe, hshort _ _ h4, if_pos (by simp)]
      exact ⟨_, rfl, rfl⟩
    · intro h4 hroom
      rw [hframe, hok _ _ h4 hroom]
      simp

/-- C6 on a 6-byte payload: address `0x01000002`, data `41 42`. -/
theorem write_memory_response_witness :
    process_packet (memory_capability (fun _ => 0)) World.fresh 9
        (buffer_of [2, 0, 0, 1, 65, 66]) 6 =
      (0, { World.fresh with
            output := [1, 0, 0, 0, 0],
            calls := [CapCall.setMemory (2 ^ 32 - 1) 0x01000002 2 [65, 66]] }) :=
  ((write_memory_response (memory_capability (fun _ => 0)) World.fresh
    (buffer_of [2, 0, 0, 1, 65, 66]) 6 (by decide)).1 (by decide) rfl).trans (by decide)

/-! ## Read memory: payload length (C7) -/

/-- C7: read-memory (command 10) goes through exactly when its payload has 8 bytes.  For every other payload length nothing is written, no library call is made, `process_packet` returns 1 and the loop ends with status 1.  With 8 bytes, whatever 32-bit length `S` the payload asks for (every `S < 2 ^ 32` is the length of some payload, those above 65536 included), `value_count` 1 is written and `process_packet` returns 0; when every read succeeds the chunks that follow carry `S` bytes in all. -/
theorem read_memory_payload_length (cap : Capability) (w : World) (recv_buffer : Nat → Nat) :
    (∀ n : Nat, n ≠ 8 → process_packet cap w 10 recv_buffer (n : Int) = (1, w)) ∧
      (∀ (n : Nat) (c : Conn) (payload rest : List Nat), n ≠ 8 → n ≤ 0x10000 →
        payload.length = n → c.input = le_bytes 4 10 ++ le_bytes 4 n ++ payload ++ rest →
        ∃ c', run_network_loop cap c = some (1, c') ∧ c'.world = c.world) ∧
      (w.room = none → w.malloc_ok = true →
        (process_packet cap w 10 recv_buffer 8).1 = 0 ∧
        ∃ rest, (process_packet cap w 10 recv_buffer 8).2.output = w.output ++ 1 :: rest) ∧
      (w.room = none → w.malloc_ok = true →
        (∀ k, k < chunk_count (recv_uint32_from_buffer recv_buffer 4) →
          0 ≤ (read_reply cap w (recv_uint32_from_buffer recv_buffer 0)
            (recv_uint32_from_buffer recv_buffer 4) k).1) →
        (process_packet cap w 10 recv_buffer 8).2.output = w.output ++ 1 ::
            (List.range (chunk_count (recv_uint32_from_buffer recv_buffer 4))).flatMap
              (chunk_wire cap w (recv_uint32_from_buffer recv_buffer 0)
                (recv_uint32_from_buffer recv_buffer 4)) ∧
          ((List.range (chunk_count (recv_uint32_from_buffer recv_buffer 4))).map
            (chunk_len (recv_uint32_from_buffer recv_buffer 4))).sum
              = recv_uint32_from_buffer recv_buffer 4) ∧
      (∀ address S, address < 2 ^ 32 → S < 2 ^ 32 →
        recv_uint32_from_buffer (buffer_of (le_bytes 4 address ++ le_bytes 4 S)) 0 = address ∧
        recv_uint32_from_buffer (buffer_of (le_bytes 4 address ++ le_bytes 4 S)) 4 = S) := by
  have hreject : ∀ (w : World) (recv_buffer : Nat → Nat) (n : Nat), n ≠ 8 →
      process_packet cap w 10 recv_buffer (n : Int) = (1, w) := by
    intro w recv_buffer n hn
    have h8 : (n : Int) ≠ 8 := by omega
    rw [process_packet_get_memory]
    simp [handle_get_memory, h8]
  refine ⟨hreject w recv_buffer, ?_, ?_, ?_, ?_⟩
  · intro n c payload rest hn hmax hlen hin
    have hframe := run_network_loop_frame cap c 10 n payload rest (by decide) hmax hlen hin
    simp only [Nat.cast_ofNat] at hframe
    rw [hframe, hreject _ _ n hn, if_pos (by simp)]
    exact ⟨_, rfl, rfl⟩
  · intro hroom hmalloc
    rw [process_packet_get_memory, handle_get_memory_ok cap w recv_buffer hroom hmalloc]
    have hret := get_memory_loop_ret cap (recv_uint32_from_buffer recv_buffer 0)
      (recv_uint32_from_buffer recv_buffer 4) (recv_uint32_from_buffer recv_buffer 4) (w.emit [1])
      (by simpa using hroom)
    obtain ⟨rest, hrest⟩ := get_memory_loop_output cap (recv_uint32_from_buffer recv_buffer 0)
      (recv_uint32_from_buffer recv_buffer 4) (recv_uint32_from_buffer recv_buffer 4) (w.emit [1])
      (by simpa using hroom)
    refine ⟨by simp [hret], rest, ?_⟩
    simp [hret, hrest]
  · intro hroom hmalloc hok
    rw [process_packet_get_memory_ok cap w recv_buffer hroom hmalloc hok]
    exact ⟨rfl, chunk_len_sum _⟩
  · intro address S ha hS
    constructor
    · exact le_bytes_uint32_roundtrip _ address _ ha
    · simp [recv_uint32_from_buffer, buffer_of, mem_store, le_bytes]
      omega

/-- C7 at a 7-byte payload, and at an 8-byte payload asking for `0x20000` bytes (more than 65536). -/
theorem read_memory_payload_length_witness :
    process_packet (memory_capability (fun a => a % 256)) World.fresh 10
        (buffer_of [0, 0, 0, 0, 0, 0, 2]) 7 = (1, World.fresh) ∧
      recv_uint32_from_buffer (buffer_of [0, 0, 0, 0, 0, 0, 2, 0]) 4 = 0x20000 ∧
      (process_packet (memory_capability (fun a => a % 256)) World.fresh 10
        (buffer_of [0, 0, 0, 0, 0, 0, 2, 0]) 8).1 = 0 :=
  ⟨(read_memory_payload_length (memory_capability (fun a => a % 256)) World.fresh
      (buffer_of [0, 0, 0, 0, 0, 0, 2])).1 7 (by decide),
    by decide,
    ((read_memory_payload_length (memory_capability (fun a => a % 256)) World.fresh
      (buffer_of [0, 0, 0, 0, 0, 0, 2, 0])).2.2.1 rfl rfl).1⟩

/-! ## Attach process: previous pid (C8) -/

/-- C8: on a session whose attached pid is still the initial `0xFFFFFFFF`, a sequence of attach-process (command 22) frames for the pids `pids` is served to the end (the loop returns 0 when the peer closes), request `i` is answered with `value_count` 1 and the `uint32` pid attached before it, which is `0xFFFFFFFF` for the first request and the pid of request `i - 1` afterwards, no library call is made, and the attached pid at the end is the last pid sent. -/
theorem attach_process_sequence (cap : Capability) (c : Conn) (pids : List Nat)
    (hpids : ∀ p ∈ pids, p < 2 ^ 32) (hroom : c.world.room = none)
    (hfresh : c.world.ProcessId = 2 ^ 32 - 1) (hin : c.input = pids.flatMap attach_frame) :
    ∃ c', run_network_loop cap c = some (0, c') ∧
      c'.world.output = c.world.output ++
        (((2 ^ 32 - 1) :: pids).dropLast).flatMap (fun prev => 1 :: le_bytes 4 prev) ∧
      c'.world.calls = c.world.calls ∧
      c'.world.ProcessId = pids.getLastD (2 ^ 32 - 1) ∧
      c'.packets = c.packets ++ pids.map (fun _ => ((22 : Int), (4 : Int))) := by
  obtain ⟨c', h1, h2, h3, h4, h5, _⟩ := attach_loop cap pids (c.input.length + 1) c hpids hroom
    (by rw [hfresh]; decide) hin (Nat.lt_succ_self _)
  rw [hfresh] at h2 h4
  exact ⟨c', h1, h2, h3, h4, h5⟩

/-- C8 for pid 5 then pid 265: the answers are `0xFFFFFFFF` and 5, and 265 stays attached. -/
theorem attach_process_sequence_witness :
    ∃ c', run_network_loop (memory_capability (fun _ => 0))
        (Conn.start ([5, 265].flatMap attach_frame)) = some (0, c') ∧
      c'.world.output = [1, 255, 255, 255, 255, 1, 5, 0, 0, 0] ∧
      c'.world.calls = [] ∧ c'.world.ProcessId = 265 :=
  (attach_process_sequence (memory_capability (fun _ => 0))
    (Conn.start ([5, 265].flatMap attach_frame)) [5, 265] (by decide) rfl rfl rfl).imp
    (fun _ h => ⟨h.1, h.2.1.trans (by decide), h.2.2.1, h.2.2.2.1.trans (by decide)⟩)

/-! ## Attach process: payload length (C9) -/

/-- C9, the code at a 5-byte payload: attach-process is not rejected, pid 7 of the first four bytes is attached and the response `01 FF FF FF FF` is written; only payloads shorter than 4 bytes are rejected. -/
theorem attach_process_accepts_longer_payload :
    process_packet (memory_capability (fun _ => 0)) World.fresh 22 (buffer_of [7, 0, 0, 0, 9]) 5 =
        (0, { World.fresh with ProcessId := 7, output := [1, 255, 255, 255, 255] }) ∧
      process_packet (memory_capability (fun _ => 0)) World.fresh 22 (buffer_of [7, 0, 0]) 3 =
        (-1, World.fresh) := by
  decide

/-! ## Process list (C10) -/

/-- C10: for a listing of `N ≤ 32` pids whose names all resolve (each within the 512 bytes of `ProcessName`), process-list (command 24) writes `value_count = N` and then, for `i = 0 .. N - 1` in the order of the listing, the `uint32` pid of entry `i`, the `int32` length of its name and the name bytes without terminator; with `N = 0` the response is the single byte 0. -/
theorem process_list_response (cap : Capability) (w : World) (recv_buffer : Nat → Nat)
    (cb : Int) (hroom : w.room = none)
    (hlist : (cap.getProcessList w.calls.length).1 = 0)
    (hcount : (cap.getProcessList w.calls.length).2.1 ≤ 32)
    (hnames : ∀ i, i < (cap.getProcessList w.calls.length).2.1 →
      (name_reply cap (w.calls.length + 1) (cap.getProcessList w.calls.length).2.2 i).1 = 0 ∧
      (name_reply cap (w.calls.length + 1) (cap.getProcessList w.calls.length).2.2 i).2.length
        ≤ 512) :
    process_packet cap w 24 recv_buffer cb =
        (0, { w with
              output := w.output ++ (cap.getProcessList w.calls.length).2.1 ::
                (List.range (cap.getProcessList w.calls.length).2.1).flatMap
                  (process_wire cap (w.calls.length + 1) (cap.getProcessList w.calls.length).2.2),
              calls := w.calls ++ CapCall.getProcessList ::
                (List.range (cap.getProcessList w.calls.length).2.1).map
                  (fun i => CapCall.getProcessName
                    ((cap.getProcessList w.calls.length).2.2.getD i 0 % 2 ^ 32)) }) ∧
      ((cap.getProcessList w.calls.length).2.1 = 0 →
        (process_packet cap w 24 recv_buffer cb).2.output = w.output ++ [0]) := by
  have h : process_packet cap w 24 recv_buffer cb =
      (0, { w with
            output := w.output ++ (cap.getProcessList w.calls.length).2.1 ::
              (List.range (cap.getProcessList w.calls.length).2.1).flatMap
                (process_wire cap (w.calls.length + 1) (cap.getProcessList w.calls.length).2.2),
            calls := w.calls ++ CapCall.getProcessList ::
              (List.range (cap.getProcessList w.calls.length).2.1).map
                (fun i => CapCall.getProcessName
                  ((cap.getProcessList w.calls.length).2.2.getD i 0 % 2 ^ 32)) }) := by
    have h32 : (cap.getProcessList w.calls.length).2.1 % 2 ^ 32
        = (cap.getProcessList w.calls.length).2.1 := by omega
    have h8 : (cap.getProcessList w.calls.length).2.1 % 256
        = (cap.getProcessList w.calls.length).2.1 := by omega
    rw [process_packet_process_list, if_neg (by rw [hlist]; decide), h32,
      send_uint8_ok _ _ (by simpa using hroom), h8]
    simp only
    rw [if_neg (by decide),
      process_list_loop_ok cap (w.calls.length + 1) _ _ 0 _ (by simpa using hroom) (by simp)]
    · simp [World.emit, World.log]
    · intro j hj
      rw [Nat.zero_add]
      refine ⟨(hnames j hj).1, ?_⟩
      have h1 := (hnames j hj).2
      have h2 : c_strlen (name_value cap (w.calls.length + 1)
          (cap.getProcessList w.calls.length).2.2 j) ≤
          (name_value cap (w.calls.length + 1) (cap.getProcessList w.calls.length).2.2 j).length := by
        unfold c_strlen
        exact (List.takeWhile_sublist _).length_le
      simp only [name_value, List.length_map] at h2
      simp only [name_value, INT_MAX]
      omega
  refine ⟨h, fun h0 => ?_⟩
  rw [h, h0]
  simp

/-- C10 on a listing of two processes. -/
theorem process_list_response_witness :
    process_packet (listing_capability [100, 200] sample_names) World.fresh 24 (buffer_of []) 0 =
      (0, { World.fresh with
            output := [2, 100, 0, 0, 0, 19, 0, 0, 0] ++ c_literal "/dev_flash/vsh.self" ++
              [200, 0, 0, 0, 4, 0, 0, 0] ++ c_literal "game",
            calls := [CapCall.getProcessList, CapCall.getProcessName 100,
              CapCall.getProcessName 200] }) :=
  (process_list_response (listing_capability [100, 200] sample_names) World.fresh (buffer_of []) 0
    rfl rfl (by decide) (by decide)).1.trans (by decide)

/-! ## Process list: a failing name lookup (C11) -/

/-- C11 as stated fails: on a listing of pids 100 and 200 where the lookup of 200 fails, `value_count` 2 and the whole pair of pid 100 have been written when `process_packet` returns -1. -/
theorem process_list_partial_response :
    World.fresh.room = none ∧
      ((failing_name_capability [100, 200] sample_names 200).getProcessName 2 200).1 = -1 ∧
      process_packet (failing_name_capability [100, 200] sample_names 200) World.fresh 24
          (buffer_of []) 0 =
        (-1, { World.fresh with
              output := [2, 100, 0, 0, 0, 19, 0, 0, 0] ++ c_literal "/dev_flash/vsh.self",
              calls := [CapCall.getProcessList, CapCall.getProcessName 100,
                CapCall.getProcessName 200] }) := by
  decide

/-- C11 amended: when the process-list call succeeds and the name lookup of entry `j` is the first to fail, process-list (command 24) has written `value_count` (the low byte of the count) and the `j` complete pairs of the entries before `j`, writes nothing after them, looks up no later pid and returns -1, which ends the connection; when the list call itself fails nothing is written. -/
theorem process_list_fail_fast (cap : Capability) (w : World) (recv_buffer : Nat → Nat)
    (cb : Int) (j : Nat) (hroom : w.room = none) :
    ((cap.getProcessList w.calls.length).1 = 0 →
      j < (cap.getProcessList w.calls.length).2.1 % 2 ^ 32 →
      (∀ l, l < j →
        (name_reply cap (w.calls.length + 1) (cap.getProcessList w.calls.length).2.2 l).1 = 0 ∧
        (name_reply cap (w.calls.length + 1) (cap.getProcessList w.calls.length).2.2 l).2.length
          ≤ 512) →
      (name_reply cap (w.calls.length + 1) (cap.getProcessList w.calls.length).2.2 j).1 ≠ 0 →
      process_packet cap w 24 recv_buffer cb =
        (-1, { w with
              output := w.output ++ (cap.getProcessList w.calls.length).2.1 % 2 ^ 32 % 256 ::
                (List.range j).flatMap
                  (process_wire cap (w.calls.length + 1) (cap.getProcessList w.calls.length).2.2),
              calls := w.calls ++ CapCall.getProcessList ::
                (List.range (j + 1)).map
                  (fun i => CapCall.getProcessName
                    ((cap.getProcessList w.calls.length).2.2.getD i 0 % 2 ^ 32)) })) ∧
      ((cap.getProcessList w.calls.length).1 ≠ 0 →
        process_packet cap w 24 recv_buffer cb = (-1, w.log CapCall.getProcessList)) := by
  constructor
  · intro hlist hj hok hfail
    rw [process_packet_process_list, if_neg (by rw [hlist]; decide),
      send_uint8_ok _ _ (by simpa using hroom)]
    simp only
    rw [if_neg (by decide),
      process_list_loop_fault cap (w.calls.length + 1) _ _ 0 _ j (by simpa using hroom)
        (by simp) hj ?_ (by rw [Nat.zero_add]; exact hfail)]
    · simp [World.emit, World.log]
    · intro l hl
      rw [Nat.zero_add]
      refine ⟨(hok l hl).1, ?_⟩
      have h1 := (hok l hl).2
      have h2 : c_strlen (name_value cap (w.calls.length + 1)
          (cap.getProcessList w.calls.length).2.2 l) ≤
          (name_value cap (w.calls.length + 1) (cap.getProcessList w.calls.length).2.2 l).length := by
        unfold c_strlen
        exact (List.takeWhile_sublist _).length_le
      simp only [name_value, List.length_map] at h2
      simp only [name_value, INT_MAX]
      omega
  · intro hfail
    rw [process_packet_process_list, if_pos (by simpa [CCAPI_OK] using hfail)]

/-- C11 amended, on the listing of pids 100 and 200 where the lookup of 200 fails. -/
theorem process_list_fail_fast_witness :
    process_packet (failing_name_capability [100, 200] sample_names 200) World.fresh 24
        (buffer_of []) 0 =
      (-1, { World.fresh with
            output := [2, 100, 0, 0, 0, 19, 0, 0, 0] ++ c_literal "/dev_flash/vsh.self",
            calls := [CapCall.getProcessList, CapCall.getProcessName 100,
              CapCall.getProcessName 200] }) :=
  ((process_list_fail_fast (failing_name_capability [100, 200] sample_names 200) World.fresh
    (buffer_of []) 0 1 rfl).1 rfl (by decide) (by decide) (by decide)).trans (by decide)

/-! ## Find game process: the first match (C12) -/

/-- C12: when the list call succeeds and entry `j` is the first whose name does not contain `dev_flash` (the names of the entries before it resolve and contain it, the name of entry `j` resolves), find-game-process (command 23) returns 0 having looked up the entries `0 .. j` and no later one, and the response carries the pid of entry `j` right after `value_count`; when that name is not empty the response is exactly `value_count` 2, the `uint32` pid, the `int32` length of the name and its bytes. -/
theorem find_game_process_response (cap : Capability) (w : World) (recv_buffer : Nat → Nat)
    (cb : Int) (j : Nat) (hroom : w.room = none) (hmalloc : w.malloc_ok = true)
    (hlist : (cap.getProcessList w.calls.length).1 = 0)
    (hj : j < (cap.getProcessList w.calls.length).2.1 % 2 ^ 32)
    (hskip : ∀ l, l < j →
      (name_reply cap (w.calls.length + 1) (cap.getProcessList w.calls.length).2.2 l).1 = 0 ∧
      c_literal "dev_flash" <:+:
        name_text cap (w.calls.length + 1) (cap.getProcessList w.calls.length).2.2 l)
    (hmatch : (name_reply cap (w.calls.length + 1)
        (cap.getProcessList w.calls.length).2.2 j).1 = 0 ∧
      ¬ c_literal "dev_flash" <:+:
        name_text cap (w.calls.length + 1) (cap.getProcessList w.calls.length).2.2 j)
    (hsize : (name_reply cap (w.calls.length + 1)
        (cap.getProcessList w.calls.length).2.2 j).2.length ≤ 512) :
    (process_packet cap w 23 recv_buffer cb).1 = 0 ∧
      (process_packet cap w 23 recv_buffer cb).2.calls =
        w.calls ++ CapCall.getProcessList :: (List.range (j + 1)).map
          (fun l => CapCall.getProcessName
            ((cap.getProcessList w.calls.length).2.2.getD l 0 % 2 ^ 32)) ∧
      (0 < (name_text cap (w.calls.length + 1)
            (cap.getProcessList w.calls.length).2.2 j).length →
        (process_packet cap w 23 recv_buffer cb).2.output =
          w.output ++ 2 ::
            (le_bytes 4 ((cap.getProcessList w.calls.length).2.2.getD j 0 % 2 ^ 32) ++
              (le_bytes 4 (name_text cap (w.calls.length + 1)
                  (cap.getProcessList w.calls.length).2.2 j).length ++
                name_text cap (w.calls.length + 1) (cap.getProcessList w.calls.length).2.2 j))) ∧
      (∃ value_count tail, (process_packet cap w 23 recv_buffer cb).2.output =
        w.output ++ value_count ::
          (le_bytes 4 ((cap.getProcessList w.calls.length).2.2.getD j 0 % 2 ^ 32) ++ tail)) := by
  have hlenle := c_strlen_le_length (name_value cap (w.calls.length + 1)
    (cap.getProcessList w.calls.length).2.2 j)
  have htextlen : (name_text cap (w.calls.length + 1)
      (cap.getProcessList w.calls.length).2.2 j).length =
      c_strlen (name_value cap (w.calls.length + 1) (cap.getProcessList w.calls.length).2.2 j) := by
    simp only [name_text, List.length_take]
    omega
  have hstr : c_strlen (name_text cap (w.calls.length + 1)
      (cap.getProcessList w.calls.length).2.2 j) =
      c_strlen (name_value cap (w.calls.length + 1) (cap.getProcessList w.calls.length).2.2 j) :=
    c_strlen_take_c_strlen _
  have hmax : c_strlen (name_text cap (w.calls.length + 1)
      (cap.getProcessList w.calls.length).2.2 j) ≤ INT_MAX := by
    rw [hstr]
    have : (name_value cap (w.calls.length + 1)
        (cap.getProcessList w.calls.length).2.2 j).length ≤ 512 := by
      simpa [name_value] using hsize
    simp only [INT_MAX]
    omega
  rw [process_packet_find_game cap w recv_buffer cb hroom,
    ccapi_find_game_process_match cap w 0 w.stale_name_buffer j hlist hj hskip hmatch]
  simp only [if_true, Nat.mod_mod]
  by_cases hpos : 0 < c_strlen (name_value cap (w.calls.length + 1)
      (cap.getProcessList w.calls.length).2.2 j)
  · rw [if_pos ⟨hpos, hmalloc⟩]
    simp only
    rw [send_string_with_tag_ok _ _ (by simpa using hroom) hmax, hstr, ← htextlen,
      List.take_length]
    refine ⟨trivial, by simp, fun _ => by simp [World.emit], ⟨2, _, by simp [World.emit]; rfl⟩⟩
  · rw [if_neg (by tauto)]
    split
    · next text hs =>
      generalize hw3 : World.emit (World.emit _ [2]) _ = w3
      have hr : w3.room = none := by rw [← hw3]; simpa using hroom
      obtain ⟨tail, htail⟩ := send_string_with_tag_emit w3 text hr
      rw [htail, ← hw3]
      exact ⟨trivial, by simp, fun h => by omega, ⟨2, tail, by simp [World.emit]⟩⟩
    · next hs =>
      exact ⟨trivial, by simp, fun h => by omega, ⟨1, [], by simp [World.emit]⟩⟩

/-- C12 on a listing of pids 100, 200 and 300 where 100 is a system process: pid 200 and its name `game` are returned and pid 300 is never looked up. -/
theorem find_game_process_response_witness :
    (process_packet (listing_capability [100, 200, 300] sample_names) World.fresh 23
        (buffer_of []) 0).2.calls =
        [CapCall.getProcessList, CapCall.getProcessName 100, CapCall.getProcessName 200] ∧
      (process_packet (listing_capability [100, 200, 300] sample_names) World.fresh 23
        (buffer_of []) 0).2.output = [2, 200, 0, 0, 0, 4, 0, 0, 0] ++ c_literal "game" :=
  ⟨(find_game_process_response (listing_capability [100, 200, 300] sample_names) World.fresh
      (buffer_of []) 0 1 rfl rfl rfl (by decide)
      (fun l hl => ⟨rfl, (c_strstr_iff_contains _ _).mp (by
        have : l = 0 := by omega
        subst this
        decide)⟩)
      ⟨rfl, fun h => absurd ((c_strstr_iff_contains _ _).mpr h) (by decide)⟩
      (by decide)).2.1.trans (by decide),
    ((find_game_process_response (listing_capability [100, 200, 300] sample_names) World.fresh
      (buffer_of []) 0 1 rfl rfl rfl (by decide)
      (fun l hl => ⟨rfl, (c_strstr_iff_contains _ _).mp (by
        have : l = 0 := by omega
        subst this
        decide)⟩)
      ⟨rfl, fun h => absurd ((c_strstr_iff_contains _ _).mpr h) (by decide)⟩
      (by decide)).2.2.1 (by decide)).trans (by decide)⟩

/-! ## Find game process: no match (C13) -/

/-- C13, the code when the local `name_buffer`, which `process_packet` never initialises, holds a pointer to the string `x`: on a listing whose only name contains `dev_flash`, on an empty listing and on a failing list call the response is `value_count` 2, pid 0 and the string `x` as a name field.  Only when the slot holds a null pointer is the response `value_count` 1 and pid 0 with no name field. -/
theorem find_game_process_stale_name_buffer :
    process_packet (listing_capability [100] sample_names) (World.with_stale_name [120, 0]) 23
        (buffer_of []) 0 =
      (0, { World.with_stale_name [120, 0] with
            output := [2, 0, 0, 0, 0, 1, 0, 0, 0, 120],
            calls := [CapCall.getProcessList, CapCall.getProcessName 100] }) ∧
    process_packet (listing_capability [] sample_names) (World.with_stale_name [120, 0]) 23
        (buffer_of []) 0 =
      (0, { World.with_stale_name [120, 0] with
            output := [2, 0, 0, 0, 0, 1, 0, 0, 0, 120], calls := [CapCall.getProcessList] }) ∧
    process_packet (faulting_capability (fun _ => 0) 0) (World.with_stale_name [120, 0]) 23
        (buffer_of []) 0 =
      (0, { World.with_stale_name [120, 0] with
            output := [2, 0, 0, 0, 0, 1, 0, 0, 0, 120], calls := [CapCall.getProcessList] }) ∧
    process_packet (listing_capability [100] sample_names) World.fresh 23 (buffer_of []) 0 =
      (0, { World.fresh with
            output := [1, 0, 0, 0, 0],
            calls := [CapCall.getProcessList, CapCall.getProcessName 100] }) := by
  decide

/-! ## Self test (C14) -/

/-- C14: self-test (command 3) with an empty payload answers `value_count` 2, the string `This is param 1!!!` as an `int32` length 18 and its 18 bytes, and the `int32` 1234567; with a payload made of a `uint16` length `L` and `L` bytes it answers `value_count` 3, the `int32` length `L`, those `L` bytes unchanged and without terminator, then the same string and `int32`. -/
theorem self_test_response (cap : Capability) (w : World) (buffer : Nat → Nat) (L : Nat)
    (data : List Nat) (hroom : w.room = none) (hmalloc : w.malloc_ok = true)
    (hL : L < 2 ^ 16) (hlen : data.length = L) (hbytes : ∀ b ∈ data, b < 256) :
    process_packet cap w 3 buffer 0 =
        (0, { w with
              output := w.output ++ 2 ::
                (le_bytes 4 18 ++ c_literal "This is param 1!!!" ++ le_bytes 4 1234567) }) ∧
      process_packet cap w 3 (mem_store buffer (le_bytes 2 L ++ data)) ((2 + L : Nat) : Int) =
        (0, { w with
              output := w.output ++ 3 ::
                (le_bytes 4 L ++ data ++
                  (le_bytes 4 18 ++ c_literal "This is param 1!!!" ++ le_bytes 4 1234567)) }) := by
  have hlit : c_strlen (c_literal "This is param 1!!!") ≤ INT_MAX := by decide
  have hlit2 : c_strlen (c_literal "This is param 1!!!") = 18 := by decide
  have htake : List.take 18 (c_literal "This is param 1!!!") = c_literal "This is param 1!!!" := by
    decide
  have hnum : to_uint32 1234567 = 1234567 := by decide
  constructor
  · simp [process_packet, send_uint8_ok, send_int32_ok, send_string_with_tag_ok, hroom, hlit]
    simp [World.emit, hlit2, htake, hnum, hroom]
  · have hcb : ((2 + L : Nat) : Int) > 0 := by omega
    have hcb2 : (0 : Int) < 2 + (L : Int) := by omega
    have hdec := recv_uint16_roundtrip buffer L data hL
    have hslice : mem_slice (mem_store buffer (le_bytes 2 L ++ data)) 2 L = data := by
      have := mem_slice_mem_store buffer (le_bytes 2 L) data hbytes
      simpa [le_bytes, hlen] using this
    have hnn : ¬ ((L : Int) + 4 < 0) := by omega
    have hu : to_uint32 (L : Int) = L := to_uint32_natCast L (by omega)
    have htake2 : List.take L (data ++ [0]) = data := by
      rw [List.take_append_of_le_length (by omega), List.take_of_length_le (by omega)]
    simp [process_packet, hcb, hcb2, send_uint8_ok, send_int32_ok, send_string_with_tag_ok,
      hroom, hmalloc, hlit, recv_u16tagged_into_new_buffer, send_buffer_with_tag_ok, hnn, hdec]
    simp [World.emit, hlit2, htake, hnum, hslice, hu, htake2, hroom, hmalloc]

/-- C14 with the payload `02 00 41 42`: the two bytes `41 42` come back first. -/
theorem self_test_response_witness :
    process_packet (memory_capability (fun _ => 0)) World.fresh 3 (buffer_of [2, 0, 65, 66]) 4 =
      (0, { World.fresh with
            output := [3, 2, 0, 0, 0, 65, 66, 18, 0, 0, 0] ++ c_literal "This is param 1!!!" ++
              [135, 214, 18, 0] }) :=
  ((self_test_response (memory_capability (fun _ => 0)) World.fresh (fun _ => 0) 2 [65, 66]
    rfl rfl (by decide) rfl (by decide)).2).trans (by decide)

/-! ## Tagged request fields and the payload length (C15) -/

/-- C15, the code at three short payloads.  After a write-memory frame whose 12-byte payload ends in `45 54 21 21`, a self-test frame with the 2-byte payload `0A 00` (a field that announces 10 bytes and carries none) is not refused: the 10 bytes after the payload in the receive buffer are echoed back, the last four being those left by the earlier frame.  A self-test payload of the single byte `01` is not refused either: the length 257 is read from that byte and the byte after it.  A connect payload `09 00` passes the `cb_recv_buffer < 2` check and hands the library the bytes `31 2E 32` found after the payload; only a connect payload of one byte is refused. -/
theorem tagged_field_reads_past_payload :
    (run_network_loop (memory_capability (fun _ => 0))
        (Conn.start ([9, 0, 0, 0, 12, 0, 0, 0, 1, 0, 0, 0, 83, 69, 67, 82, 69, 84, 33, 33] ++
          [3, 0, 0, 0, 2, 0, 0, 0, 10, 0]))).map (fun r => (r.1, r.2.world.output)) =
      some (0, [1, 0, 0, 0, 0] ++
        ([3, 10, 0, 0, 0] ++ [0, 0, 2, 0, 0, 0, 69, 84, 33, 33] ++
          ([18, 0, 0, 0] ++ c_literal "This is param 1!!!" ++ [135, 214, 18, 0]))) ∧
    (process_packet (memory_capability (fun _ => 0)) World.fresh 3
        (buffer_of [1, 1, 7, 8, 9]) 1).2.output.take 8 = [3, 1, 1, 0, 0, 7, 8, 9] ∧
    process_packet (memory_capability (fun _ => 0)) World.fresh 4 (buffer_of [9, 0, 49, 46, 50]) 2 =
      (0, { World.fresh with
            output := [1, 0, 0, 0, 0], calls := [CapCall.connect [49, 46, 50]] }) ∧
    process_packet (memory_capability (fun _ => 0)) World.fresh 4 (buffer_of [2]) 1 =
      (-1, World.fresh) := by
  decide

/-! ## Unknown commands (C16) -/

/-- C16: for every command identifier outside `1, 2, 3, 4, 5, 9, 10, 22, 23, 24`, `process_packet` returns -1 and leaves the world as it was (no response byte, no library call, the attached pid unchanged), whatever the payload; a frame with such an identifier ends the loop with status -1. -/
theorem unknown_command_rejected (cap : Capability) (w : World) (cmd_id : Int)
    (recv_buffer : Nat → Nat) (cb : Int)
    (hcmd : cmd_id ≠ 1 ∧ cmd_id ≠ 2 ∧ cmd_id ≠ 3 ∧ cmd_id ≠ 4 ∧ cmd_id ≠ 5 ∧ cmd_id ≠ 9 ∧
      cmd_id ≠ 10 ∧ cmd_id ≠ 22 ∧ cmd_id ≠ 23 ∧ cmd_id ≠ 24) :
    process_packet cap w cmd_id recv_buffer cb = (-1, w) ∧
      (∀ (c : Conn) (cmd n : Nat) (payload rest : List Nat), (cmd : Int) = cmd_id →
        cmd < 2 ^ 31 → n ≤ 0x10000 → payload.length = n →
        c.input = le_bytes 4 cmd ++ le_bytes 4 n ++ payload ++ rest →
        ∃ c', run_network_loop cap c = some (-1, c') ∧ c'.world = c.world ∧ c'.input = rest) := by
  obtain ⟨h1, h2, h3, h4, h5, h9, h10, h22, h23, h24⟩ := hcmd
  have hpp : ∀ (w : World) (recv_buffer : Nat → Nat) (cb : Int),
      process_packet cap w cmd_id recv_buffer cb = (-1, w) := by
    intro w recv_buffer cb
    unfold process_packet
    rw [if_neg h1, if_neg h2, if_neg h3, if_neg h4, if_neg h5, if_neg h9, if_neg h10, if_neg h22,
      if_neg h23, if_neg h24]
  refine ⟨hpp w recv_buffer cb, ?_⟩
  intro c cmd n payload rest hc hlt hn hlen hin
  have hframe := run_network_loop_frame cap c cmd n payload rest hlt hn hlen hin
  rw [hc, hpp] at hframe
  rw [hframe, if_pos (by simp)]
  exact ⟨_, rfl, rfl, rfl⟩

/-- C16 at command 6 with an empty payload, alone and as a frame followed by another frame. -/
theorem unknown_command_rejected_witness :
    process_packet (memory_capability (fun _ => 0)) World.fresh 6 (buffer_of []) 0 =
        (-1, World.fresh) ∧
      ∃ c', run_network_loop (memory_capability (fun _ => 0))
          (Conn.start [6, 0, 0, 0, 0, 0, 0, 0, 5, 0, 0, 0, 0, 0, 0, 0]) = some (-1, c') ∧
        c'.world = World.fresh ∧ c'.input = [5, 0, 0, 0, 0, 0, 0, 0] :=
  ⟨(unknown_command_rejected (memory_capability (fun _ => 0)) World.fresh 6 (buffer_of []) 0
      (by decide)).1,
    (unknown_command_rejected (memory_capability (fun _ => 0)) World.fresh 6 (buffer_of []) 0
      (by decide)).2 (Conn.start [6, 0, 0, 0, 0, 0, 0, 0, 5, 0, 0, 0, 0, 0, 0, 0]) 6 0 []
      [5, 0, 0, 0, 0, 0, 0, 0] rfl (by decide) (by decide) rfl rfl⟩

/-! ## Header round trip (C17) -/

/-- C17: for every valid header (`0 ≤ command_id < 2 ^ 31`, `0 ≤ payload_length ≤ 65536`), the 8 bytes that two `send_int32` calls put on the wire for `(command_id, payload_length)` are read back by the loop as exactly `command_id` and `payload_length`, pass both header guards, and the frame is handed to `process_packet` with these two values. -/
theorem header_roundtrip (cap : Capability) (w : World) (buffer : Nat → Nat)
    (command_id payload_length : Int) (hc0 : 0 ≤ command_id) (hc1 : command_id < 2 ^ 31)
    (hl0 : 0 ≤ payload_length) (hl1 : payload_length ≤ 0x10000) :
    (w.room = none →
        (send_int32 (send_int32 w command_id).2 payload_length).2.output =
          w.output ++ (le_bytes 4 (to_uint32 command_id) ++ le_bytes 4 (to_uint32 payload_length))) ∧
      recv_int32_from_buffer (mem_store buffer
          (le_bytes 4 (to_uint32 command_id) ++ le_bytes 4 (to_uint32 payload_length))) 0
        = command_id ∧
      recv_int32_from_buffer (mem_store buffer
          (le_bytes 4 (to_uint32 command_id) ++ le_bytes 4 (to_uint32 payload_length))) 4
        = payload_length ∧
      ¬ (command_id < 0) ∧ ¬ (payload_length < 0 ∨ payload_length > 0x10000) ∧
      (∀ (c : Conn) (payload rest : List Nat), (payload.length : Int) = payload_length →
        c.input = le_bytes 4 (to_uint32 command_id) ++ le_bytes 4 (to_uint32 payload_length) ++
          payload ++ rest →
        run_network_loop cap c =
          if (process_packet cap c.world command_id
              (mem_store (mem_store c.buffer (le_bytes 4 (to_uint32 command_id) ++
                le_bytes 4 (to_uint32 payload_length))) payload) payload_length).1 ≠ 0
          then
            some ((process_packet cap c.world command_id
                (mem_store (mem_store c.buffer (le_bytes 4 (to_uint32 command_id) ++
                  le_bytes 4 (to_uint32 payload_length))) payload) payload_length).1,
              { input := rest,
                buffer := mem_store (mem_store c.buffer (le_bytes 4 (to_uint32 command_id) ++
                  le_bytes 4 (to_uint32 payload_length))) payload,
                packets := c.packets ++ [(command_id, payload_length)],
                world := (process_packet cap c.world command_id
                  (mem_store (mem_store c.buffer (le_bytes 4 (to_uint32 command_id) ++
                    le_bytes 4 (to_uint32 payload_length))) payload) payload_length).2 })
          else
            run_network_loop cap
              { input := rest,
                buffer := mem_store (mem_store c.buffer (le_bytes 4 (to_uint32 command_id) ++
                  le_bytes 4 (to_uint32 payload_length))) payload,
                packets := c.packets ++ [(command_id, payload_length)],
                world := (process_packet cap c.world command_id
                  (mem_store (mem_store c.buffer (le_bytes 4 (to_uint32 command_id) ++
                    le_bytes 4 (to_uint32 payload_length))) payload) payload_length).2 }) := by
  obtain ⟨a, rfl⟩ := Int.eq_ofNat_of_zero_le hc0
  obtain ⟨b, rfl⟩ := Int.eq_ofNat_of_zero_le hl0
  have ha : a < 2 ^ 31 := by omega
  have hb : b ≤ 0x10000 := by omega
  rw [to_uint32_natCast a (by omega), to_uint32_natCast b (by omega)]
  have hrt := le_bytes_int32_roundtrip buffer a b ha (by omega)
  refine ⟨?_, hrt.1, hrt.2, by omega, by omega, ?_⟩
  · intro hroom
    rw [send_int32_ok w _ hroom, send_int32_ok _ _ (by simpa using hroom),
      to_uint32_natCast a (by omega), to_uint32_natCast b (by omega)]
    simp [World.emit]
  · intro c payload rest hlen hin
    exact run_network_loop_frame cap c a b payload rest ha hb (by omega) hin

/-- C17 at the header of command 9 with the largest payload length, 65536. -/
theorem header_roundtrip_witness :
    recv_int32_from_buffer (mem_store (fun _ => 0)
        (le_bytes 4 (to_uint32 9) ++ le_bytes 4 (to_uint32 65536))) 0 = 9 ∧
      recv_int32_from_buffer (mem_store (fun _ => 0)
        (le_bytes 4 (to_uint32 9) ++ le_bytes 4 (to_uint32 65536))) 4 = 65536 :=
  ⟨(header_roundtrip (memory_capability (fun _ => 0)) World.fresh (fun _ => 0) 9 65536
      (by decide) (by decide) (by decide) (by decide)).2.1,
    (header_roundtrip (memory_capability (fun _ => 0)) World.fresh (fun _ => 0) 9 65536
      (by decide) (by decide) (by decide) (by decide)).2.2.1⟩

/-! ## Console id strings (C18) -/

/-- C18, the code at the 32 hexadecimal digits `000102030405060708090A0B0C0D0E0F`: the loop `for (i = 0; i < len + 1; i += 2)` runs 17 times and stores 17 bytes, the seventeenth (a 0 read from the terminator) at index 16, one past the 16 bytes of `ConsoleId.value`; a string of two digits stores 2 bytes where one is its half rounded up; only strings of odd length store exactly half their length rounded up. -/
theorem string_to_array_writes_past_console_id :
    ccapi_string_to_array (c_literal "000102030405060708090A0B0C0D0E0F") =
        [0, 1, 2, 3, 4, 5, 6, 7, 8, 9, 10, 11, 12, 13, 14, 15, 0] ∧
      (c_literal "000102030405060708090A0B0C0D0E0F").length = 32 ∧
      ConsoleId_size < (ccapi_string_to_array (c_literal "000102030405060708090A0B0C0D0E0F")).length ∧
      ccapi_string_to_array (c_literal "ab") = [171, 0] ∧
      ccapi_string_to_array (c_literal "abc") = [171, 192] := by
  decide

end MemEngine360
